import Mathlib

/-!
# Juju: uniter resolvers and neighbouring functions

A shallow embedding of the resolvers of `worker/uniter`, and of the other
functions of the repository the specification's properties are about.

* `Uniter.nextAction` and `Uniter.NextOp` embed
  `worker/uniter/actions/resolver.go`; `Uniter.NextOpWorld` embeds the same
  method in state-passing form, with the memory its arguments share with the
  caller and a factory that has a state of its own.
* `Uniter.upgradecharmprofile.NextOp` embeds
  `worker/uniter/upgradecharmprofile/resolver.go`.
* `Upgrades.UpgradeAllowed` embeds `upgrades/model.go`.
* `Instances.FindInstanceSpec` embeds `environs/instances/image.go`.
* `ResourceClient.getResourceInfo` and `ResourceClient.GetResource` embed
  `api/client/resources/private/client/client.go`.
* `Spaces.convertOldSubnetTagToCIDR` embeds part of
  `apiserver/facades/client/spaces/spaces.go`.

Modelling conventions.

* A Go result pair `(operation.Operation, error)` is a pair
  `Option Op × Option Error`; `none` is Go's `nil`.
* A pointer field (`Hook *hook.Info`, `ActionId *string`) is an `Option`;
  dereferencing `none` is a run-time panic: the run ends with
  `Completion.panicked` at that point.
* `map[string]struct{}` is a finite set of strings.
* The resolver makes calls on two collaborators, its logger and the operation
  factory. Each call is recorded, in program order, in the trace of the run. The
  factory is a triple of total functions: its constructors return, and return
  the same pair for the same argument. The logger and the factory are non-nil
  interface values.
* A function or table that the code calls and that is declared outside the
  sources at hand is a parameter of the embedding, a total function.
-/

namespace Uniter

/-- Modelled from the spec: `operation.Kind` is declared outside the sources at
hand; the data model lists the kinds Continue, RunHook, RunAction, RunCommand,
Upgrade, and the claims add Install. -/
inductive Kind where
  | Install
  | RunAction
  | RunHook
  | RunCommand
  | Upgrade
  | Continue
  deriving DecidableEq, Repr

/-- Modelled from the spec: `operation.Step` is declared outside the sources at
hand; the data model lists the steps Queued, Pending, Done. -/
inductive Step where
  | Queued
  | Pending
  | Done
  deriving DecidableEq, Repr

/-- Modelled from the spec: `hook.Info` is declared outside the sources at hand;
the data model describes it as a hook kind plus context. The resolver reads
only `Kind`, and passes the whole value to the factory. -/
structure HookInfo where
  Kind : String
  Context : String
  deriving DecidableEq, Repr

/-- Error values the resolvers compare against or return. `ErrNoOperation` and
`ErrDoNotProceed` are the sentinels of package `resolver`; `Other` stands for
every other error value. -/
inductive Error where
  | ErrNoOperation
  | ErrDoNotProceed
  | Other (msg : String)
  deriving DecidableEq, Repr

/-- The fields of `resolver.LocalState` the resolvers read. -/
structure LocalState where
  Kind : Kind
  Step : Step
  Hook : Option HookInfo
  ActionId : Option String
  CompletedActions : Finset String
  OutdatedRemoteCharm : Bool

/-- The fields of `remotestate.Snapshot` the resolvers read. -/
structure Snapshot where
  ActionsPending : List String
  ActionsBlocked : Bool
  UpgradeCharmProfileStatus : String

/-- The constructors of `operation.Factory` the actions resolver calls, each
returning a Go pair `(Operation, error)`. -/
structure Factory (Op : Type) where
  NewAction : String → Option Op × Option Error
  NewFailAction : String → Option Op × Option Error
  NewSkipHook : HookInfo → Option Op × Option Error

/-- The argument of a log line, kept unformatted. -/
inductive LogArg where
  | ActionIdPtr (p : Option String)
  | HookKind (k : String)
  | OpKind (k : Kind)
  | Status (s : String)
  deriving DecidableEq, Repr

/-- A call a resolver makes on one of its collaborators. -/
inductive Event where
  | Infof (format : String) (arg : LogArg)
  | Errorf (format : String) (arg : LogArg)
  | NewAction (id : String)
  | NewFailAction (id : String)
  | NewSkipHook (hook : HookInfo)
  deriving DecidableEq, Repr

/-- How a run of `NextOp` ends: it returns a Go pair, or it panics. -/
inductive Completion (Op : Type) where
  | returned (op : Option Op) (err : Option Error)
  | panicked
  deriving DecidableEq

/-- A run of `NextOp`: the calls made, in order, and how the run ended. -/
structure Run (Op : Type) where
  trace : List Event
  completion : Completion Op
  deriving DecidableEq

/-- Whether an event is a call of a factory constructor. -/
def Event.isFactoryCall : Event → Bool
  | .Infof _ _ => false
  | .Errorf _ _ => false
  | .NewAction _ => true
  | .NewFailAction _ => true
  | .NewSkipHook _ => true

/-- The factory calls of a run, in order. -/
def Run.factoryCalls {Op : Type} (r : Run Op) : List Event :=
  r.trace.filter Event.isFactoryCall

/-- The statement `return f(x)`: the run ends with the pair the factory gave. -/
def Completion.ofPair {Op : Type} (p : Option Op × Option Error) : Completion Op :=
  .returned p.1 p.2

/-- The function `nextAction` of `actions/resolver.go`: the first pending action
that is not a key of the completed set, or `("", ErrNoOperation)`. -/
def nextAction (pendingActions : List String) (completedActions : Finset String) :
    String × Option Error :=
  match pendingActions with
  | [] => ("", some Error.ErrNoOperation)
  | action :: rest =>
    if action ∉ completedActions then (action, none)
    else nextAction rest completedActions

/-- The method `actionsResolver.NextOp` of `actions/resolver.go`. -/
def NextOp {Op : Type} (localState : LocalState) (remoteState : Snapshot)
    (opFactory : Factory Op) : Run Op :=
  if remoteState.ActionsBlocked || localState.OutdatedRemoteCharm then
    if localState.Kind = Kind.RunAction then
      match localState.Hook with
      | some hook =>
        ⟨[.Infof "found incomplete action %v; ignoring" (.ActionIdPtr localState.ActionId),
          .Infof "recommitting prior %q hook" (.HookKind hook.Kind),
          .NewSkipHook hook],
         .ofPair (opFactory.NewSkipHook hook)⟩
      | none =>
        match localState.ActionId with
        | none => ⟨[], .panicked⟩
        | some id => ⟨[.NewFailAction id], .ofPair (opFactory.NewFailAction id)⟩
    else ⟨[], .returned none (some Error.ErrNoOperation)⟩
  else
    let (next, err) := nextAction remoteState.ActionsPending localState.CompletedActions
    if err ≠ none ∧ err ≠ some Error.ErrNoOperation then ⟨[], .returned none err⟩
    else
      match localState.Kind with
      | Kind.RunHook =>
        if localState.Step = Step.Pending ∧ err = none then
          ⟨[.NewAction next], .ofPair (opFactory.NewAction next)⟩
        else ⟨[], .returned none (some Error.ErrNoOperation)⟩
      | Kind.RunAction =>
        match localState.Hook with
        | some hook =>
          ⟨[.Infof "found incomplete action %v; ignoring" (.ActionIdPtr localState.ActionId),
            .Infof "recommitting prior %q hook" (.HookKind hook.Kind),
            .NewSkipHook hook],
           .ofPair (opFactory.NewSkipHook hook)⟩
        | none =>
          match localState.ActionId with
          | none => ⟨[.Infof "%q hook is nil" (.OpKind Kind.RunAction)], .panicked⟩
          | some id =>
            if next = id then
              ⟨[.Infof "%q hook is nil" (.OpKind Kind.RunAction), .NewFailAction id],
               .ofPair (opFactory.NewFailAction id)⟩
            else
              ⟨[.Infof "%q hook is nil" (.OpKind Kind.RunAction), .NewAction id],
               .ofPair (opFactory.NewAction id)⟩
      | Kind.Continue =>
        if err ≠ some Error.ErrNoOperation then
          ⟨[.NewAction next], .ofPair (opFactory.NewAction next)⟩
        else ⟨[], .returned none (some Error.ErrNoOperation)⟩
      | _ => ⟨[], .returned none (some Error.ErrNoOperation)⟩

/-- A factory for worked examples: an operation is the text of the call. -/
def textFactory : Factory String where
  NewAction := fun id => (some ("run-action " ++ id), none)
  NewFailAction := fun id => (some ("fail-action " ++ id), none)
  NewSkipHook := fun h => (some ("skip-hook " ++ h.Kind), none)

/-- The next candidate in the words of the specification: scanning the pending
list in order, the first entry that is not in the completed set, if any. -/
def nextCandidate (pending : List String) (completed : Finset String) : Option String :=
  pending.find? (fun a => decide (a ∉ completed))

/-- The pair a factory gives in answer to a recorded factory call; a log line has
no answer. -/
def Factory.answer {Op : Type} (opFactory : Factory Op) :
    Event → Option (Option Op × Option Error)
  | .NewAction id => some (opFactory.NewAction id)
  | .NewFailAction id => some (opFactory.NewFailAction id)
  | .NewSkipHook hook => some (opFactory.NewSkipHook hook)
  | .Infof _ _ => none
  | .Errorf _ _ => none

namespace upgradecharmprofile

/-- The two functions of package `core/lxdprofile` the resolver calls. The
package is outside the sources at hand, so the resolver takes them as a
parameter; they are total functions of the status string. -/
structure LxdProfile where
  UpgradeStatusTerminal : String → Bool
  UpgradeStatusErrorred : String → Bool

/-- The method `upgradeCharmProfileResolver.NextOp` of
`upgradecharmprofile/resolver.go`. -/
def NextOp {Op : Type} (lxdprofile : LxdProfile) (_localState : LocalState)
    (remoteState : Snapshot) (_opFactory : Factory Op) : Run Op :=
  if !lxdprofile.UpgradeStatusTerminal remoteState.UpgradeCharmProfileStatus then
    ⟨[], .returned none (some Error.ErrDoNotProceed)⟩
  else if lxdprofile.UpgradeStatusErrorred remoteState.UpgradeCharmProfileStatus then
    ⟨[.Errorf "error upgrading lxd profile %v"
        (.Status remoteState.UpgradeCharmProfileStatus)],
     .returned none (some Error.ErrNoOperation)⟩
  else ⟨[], .returned none (some Error.ErrNoOperation)⟩

end upgradecharmprofile

end Uniter

namespace Upgrades

/-- The type `version.Number` of the library `github.com/juju/version/v2`, with
its fields in declaration order. -/
structure Number where
  Major : Int
  Minor : Int
  Tag : String
  Patch : Int
  Build : Int
  deriving DecidableEq, Repr

/-- The method `Number.Compare` of the library `github.com/juju/version/v2`,
which is outside the sources at hand: -1, 0 or 1 as `v` is less than, equal to
or greater than `w`. The fields are compared in the order major, minor, tag,
patch, build; an empty tag is greater than every other tag. Two tags are
compared as Go compares strings, which on valid UTF-8 is the lexicographic
order of the lists of code points, written on `toList` so that it can be
evaluated. -/
def Number.Compare (v w : Number) : Int :=
  if v = w then 0
  else
    let less : Bool :=
      if v.Major ≠ w.Major then decide (v.Major < w.Major)
      else if v.Minor ≠ w.Minor then decide (v.Minor < w.Minor)
      else if v.Tag ≠ w.Tag then
        if v.Tag = "" then false
        else if w.Tag = "" then true
        else decide (v.Tag.toList < w.Tag.toList)
      else if v.Patch ≠ w.Patch then decide (v.Patch < w.Patch)
      else if v.Build ≠ w.Build then decide (v.Build < w.Build)
      else false
    if less then -1 else 1

/-- The map `MinMajorUpgradeVersion` of `upgrades/model.go`: its only key is 3,
with value `version.MustParse("2.8.9")`. -/
def MinMajorUpgradeVersion (major : Int) : Option Number :=
  if major = 3 then some ⟨2, 8, "", 9, 0⟩ else none

/-- The error `UpgradeAllowed` builds with `errors.Errorf("unknown version %q", to)`. -/
inductive UpgradeError where
  | unknownVersion (version : Number)
  deriving DecidableEq, Repr

/-- The function `UpgradeAllowed` of `upgrades/model.go`. The result is the Go
triple `(bool, version.Number, error)`; the zero `version.Number` has every
field zero and an empty tag. The parameters `from` and `to` are written `from_`
and `to_`. -/
def UpgradeAllowed (from_ to_ : Number) : Bool × Number × Option UpgradeError :=
  if from_.Major = to_.Major then (true, ⟨0, 0, "", 0, 0⟩, none)
  else if from_.Major > to_.Major then (false, ⟨0, 0, "", 0, 0⟩, none)
  else
    match MinMajorUpgradeVersion to_.Major with
    | none => (false, ⟨0, 0, "", 0, 0⟩, some (UpgradeError.unknownVersion to_))
    | some minVer =>
      let cleared : Number := { from_ with Tag := "" }
      (decide (cleared.Compare minVer ≥ 0), minVer, none)

end Upgrades

namespace Instances

/-- The type `Image` of `environs/instances/image.go`. -/
structure Image where
  Id : String
  Arch : String
  VirtType : String
  deriving DecidableEq, Repr

/-- The fields of `InstanceType` that `image.go` reads. The type is declared in
`instancetype.go`, outside the sources at hand; `VirtType` is a `*string`. -/
structure InstanceType where
  Name : String
  Arches : List String
  VirtType : Option String
  deriving DecidableEq, Repr

/-- The type `InstanceConstraint` of `image.go`; `Value` stands for
`constraints.Value`, which `image.go` only passes on. -/
structure InstanceConstraint (Value : Type) where
  Region : String
  Series : String
  Arches : List String
  Constraints : Value
  Storage : List String

/-- The type `InstanceSpec` of `image.go`. -/
structure InstanceSpec where
  InstanceType : InstanceType
  Image : Image
  order : Nat
  deriving DecidableEq, Repr

/-- The type `imageMatch` of `image.go`. -/
inductive imageMatch where
  | nonMatch
  | exactMatch
  | partialMatch
  deriving DecidableEq, Repr

/-- The value type of the map `arch.Info` of the library
`github.com/juju/utils/v3/arch`. The map itself is a parameter `Info` of the
functions below: a key that is absent gives the zero value. -/
structure ArchInfo where
  WordSize : Int
  deriving DecidableEq, Repr

/-- The method `Image.matchArch` of `image.go`. -/
def Image.matchArch (image : Image) (arches : List String) : Bool :=
  match arches with
  | [] => false
  | arch :: rest => if arch = image.Arch then true else image.matchArch rest

/-- The method `Image.match` of `image.go`. -/
def Image.match_ (image : Image) (itype : InstanceType) : imageMatch :=
  if !image.matchArch itype.Arches then imageMatch.nonMatch
  else
    match itype.VirtType with
    | none => imageMatch.exactMatch
    | some virtType =>
      if image.VirtType = virtType then imageMatch.exactMatch
      else if image.VirtType = "" then imageMatch.partialMatch
      else imageMatch.nonMatch

/-- The method `byArch.Less` of `image.go`, on the two elements at the indices
it is given. Go compares strings byte by byte, which on valid UTF-8 is the
lexicographic order of the lists of code points; that order is written out on
`toList` so that it can be evaluated. -/
def byArch.Less (Info : String → ArchInfo) (a b : InstanceSpec) : Bool :=
  let iArchName := a.Image.Arch
  let jArchName := b.Image.Arch
  let iArch := Info iArchName
  let jArch := Info jArchName
  if iArch.WordSize > jArch.WordSize then true
  else if iArch.WordSize < jArch.WordSize then false
  else if iArchName.toList < jArchName.toList then true
  else if iArchName.toList > jArchName.toList then false
  else decide (a.order < b.order)

/-- The key `byArch.Less` orders by: wider word size first, then the
architecture name, then the `order` field. -/
def byArch.key (Info : String → ArchInfo) (a : InstanceSpec) :
    Lex (Intᵒᵈ × Lex (String × Nat)) :=
  toLex (OrderDual.toDual (Info a.Image.Arch).WordSize, toLex (a.Image.Arch, a.order))

/-- The call `sort.Sort(byArch(specs))`. The specs of one list carry pairwise
different `order` fields, so `Less` is a strict total order on them and the
sorted list is the same for every sorting algorithm; here it is computed by
insertion. -/
def sortByArch (Info : String → ArchInfo) (specs : List InstanceSpec) : List InstanceSpec :=
  specs.insertionSort (fun a b => byArch.Less Info b a = false)

/-- The body of the inner loop of `FindInstanceSpec` (lines 86-97): the pair
of lists is `(exactSpecs, partialSpecs)`. -/
def addSpec (specs : List InstanceSpec × List InstanceSpec) (itype : InstanceType)
    (image : Image) : List InstanceSpec × List InstanceSpec :=
  match image.match_ itype with
  | imageMatch.exactMatch => (specs.1 ++ [⟨itype, image, specs.1.length⟩], specs.2)
  | imageMatch.partialMatch => (specs.1, specs.2 ++ [⟨itype, image, specs.2.length⟩])
  | imageMatch.nonMatch => specs

/-- The two nested loops of `FindInstanceSpec` (lines 83-99). -/
def collectSpecs (matchingTypes : List InstanceType) (possibleImages : List Image) :
    List InstanceSpec × List InstanceSpec :=
  matchingTypes.foldl
    (fun specs itype => possibleImages.foldl (fun specs image => addSpec specs itype image) specs)
    ([], [])

/-- The choice between the two lists (lines 101-104). -/
def selectSpecs (collected : List InstanceSpec × List InstanceSpec) : List InstanceSpec :=
  if collected.1.length = 0 then collected.2 else collected.1

/-- The errors `FindInstanceSpec` returns; `E` is the type of the errors of
`MatchingInstanceTypes`. -/
inductive FindError (E : Type) where
  | noMetadata (series region : String) (arches : List String)
  | matching (err : E)
  | noInstanceTypes
  | noImages (series region : String) (names : List String)
  deriving DecidableEq, Repr

/-- How a call of `FindInstanceSpec` ends: `(spec, nil)`, `(nil, err)`, or a
panic. -/
inductive FindResult (E : Type) where
  | found (spec : InstanceSpec)
  | failed (err : FindError E)
  | panicked
  deriving DecidableEq, Repr

/-- The function `FindInstanceSpec` of `image.go`. `MatchingInstanceTypes` is
declared in `instancetype.go`, outside the sources at hand, and is a parameter,
as is the map `arch.Info`. The argument `ic` is a pointer. The log lines, which
do not bear on the result, are left out. -/
def FindInstanceSpec {Value E : Type} (Info : String → ArchInfo)
    (MatchingInstanceTypes : List InstanceType → String → Value → List InstanceType × Option E)
    (possibleImages : List Image) (ic : Option (InstanceConstraint Value))
    (allInstanceTypes : List InstanceType) : FindResult E :=
  match ic with
  | none => .panicked
  | some ic =>
    if possibleImages.length = 0 then .failed (.noMetadata ic.Series ic.Region ic.Arches)
    else
      let (matchingTypes, err) := MatchingInstanceTypes allInstanceTypes ic.Region ic.Constraints
      match err with
      | some e => .failed (.matching e)
      | none =>
        if matchingTypes.length = 0 then .failed .noInstanceTypes
        else
          let specs := selectSpecs (collectSpecs matchingTypes possibleImages)
          if specs.length > 0 then
            match (sortByArch Info specs)[0]? with
            | some spec => .found spec
            | none => .panicked
          else
            .failed (.noImages ic.Series ic.Region (matchingTypes.map (fun itype => itype.Name)))

/-- The pairs the two loops visit, in the order they visit them, that match in
the given way, numbered from `start` in that order. -/
def numberedSpecs (start : Nat) : List (InstanceType × Image) → List InstanceSpec
  | [] => []
  | (itype, image) :: rest => ⟨itype, image, start⟩ :: numberedSpecs (start + 1) rest

/-- Whether a pair of an instance type and an image matches in the given way. -/
def matchesAs (m : imageMatch) (p : InstanceType × Image) : Bool :=
  decide (p.2.match_ p.1 = m)

/-- An `arch.Info` for worked examples: 64-bit for amd64 and arm64, 32-bit for
i386, the zero value otherwise. -/
def exampleInfo (name : String) : ArchInfo :=
  if name = "amd64" ∨ name = "arm64" then ⟨64⟩
  else if name = "i386" then ⟨32⟩
  else ⟨0⟩

/-- A `MatchingInstanceTypes` for worked examples: every instance type matches. -/
def exampleMatching (allInstanceTypes : List InstanceType) (_region : String)
    (_constraints : Unit) : List InstanceType × Option String :=
  (allInstanceTypes, none)

end Instances

namespace ResourceClient

/-- The type `params.Error`, declared in `rpc/params`, outside the sources at
hand: an error as it travels in an API response. -/
structure ParamsError where
  Message : String
  Code : String
  deriving DecidableEq, Repr

/-- The type `params.UnitResourceResult`: an embedded `ErrorResult`, whose
`Error` is a `*params.Error`, and the resource; `ApiRes` stands for
`params.Resource`. -/
structure UnitResourceResult (ApiRes : Type) where
  Error : Option ParamsError
  Resource : ApiRes

/-- The type `params.UnitResourcesResult`: an embedded `ErrorResult` and one
entry per resource asked for. -/
structure UnitResourcesResult (ApiRes : Type) where
  Error : Option ParamsError
  Resources : List (UnitResourceResult ApiRes)

/-- A Go `error` that is not nil, given by its message. -/
abbrev Err : Type := String

/-- The value `*http.Response` that `Do` leaves behind; only `Body` is read. -/
structure HTTPResponse (Body : Type) where
  Body : Body

/-- What `UnitFacadeClient` calls and does not define. The facade caller and the
HTTP client are its two embedded interfaces; `RestoreError` is in
`apiserver/errors`, `NewHTTPDownloadRequest` and `API2Resource` in
`api/client/resources`, `Annotate`, `Trace` and `New` in the library
`github.com/juju/errors`: all outside the sources at hand, and parameters here.
`FacadeCall` and `Do` give the value they leave in `response` and the error
they return; `zeroResource` is `resource.Resource{}`. -/
structure Deps (Req Body ApiRes Res : Type) where
  NewHTTPDownloadRequest : String → Req × Option Err
  Do : Req → Option (HTTPResponse Body) × Option Err
  FacadeCall : String → List String → UnitResourcesResult ApiRes × Option Err
  RestoreError : Option ParamsError → Option Err
  Annotate : Option Err → String → Option Err
  Trace : Option Err → Option Err
  New : String → Err
  API2Resource : ApiRes → Res × Option Err
  zeroResource : Res

/-- The method `UnitFacadeClient.getResourceInfo` of
`api/client/resources/private/client/client.go`. -/
def getResourceInfo {Req Body ApiRes Res : Type} (c : Deps Req Body ApiRes Res)
    (resourceName : String) : Res × Option Err :=
  let (response, err) := c.FacadeCall "GetResourceInfo" [resourceName]
  if err ≠ none then (c.zeroResource, c.Annotate err "could not get resource info")
  else if response.Error ≠ none then
    let err := c.RestoreError response.Error
    (c.zeroResource, c.Annotate err "request failed on server")
  else
    match response.Resources with
    | [first] =>
      if first.Error ≠ none then
        let err := c.RestoreError response.Error
        (c.zeroResource, c.Annotate err "request failed for resource")
      else
        let (res, err) := c.API2Resource first.Resource
        if err ≠ none then (c.zeroResource, c.Annotate err "got bad data from API server")
        else (res, none)
    | _ => (c.zeroResource, some (c.New "got bad response from API server"))

/-- How a call of `GetResource` ends: it returns its Go triple
`(resource.Resource, io.ReadCloser, error)`, or it panics. -/
inductive GetResult (Body Res : Type) where
  | returned (res : Res) (body : Option Body) (err : Option Err)
  | panicked

/-- The method `UnitFacadeClient.GetResource` of the same file. -/
def GetResource {Req Body ApiRes Res : Type} (c : Deps Req Body ApiRes Res)
    (resourceName : String) : GetResult Body Res :=
  let (req, err) := c.NewHTTPDownloadRequest resourceName
  if err ≠ none then .returned c.zeroResource none (c.Annotate err "failed to build API request")
  else
    let (response, err) := c.Do req
    if err ≠ none then .returned c.zeroResource none (c.Annotate err "HTTP request failed")
    else
      let (resourceInfo, err) := getResourceInfo c resourceName
      if err ≠ none then .returned c.zeroResource none (c.Trace err)
      else
        match response with
        | none => .panicked
        | some response => .returned resourceInfo (some response.Body) none

/-- Collaborators for a worked example: the download succeeds, and the facade
answers with one entry that carries a not-found error and no top-level error.
The error functions act as the libraries do: `Annotate` and `Trace` of nil are
nil, `RestoreError` of a nil `*params.Error` is nil. -/
def exampleDeps : Deps String String String String where
  NewHTTPDownloadRequest := fun name => ("GET /resources/" ++ name, none)
  Do := fun _ => (some ⟨"body"⟩, none)
  FacadeCall := fun _ _ => (⟨none, [⟨some ⟨"resource not found", "not found"⟩, ""⟩]⟩, none)
  RestoreError := fun e => e.map (fun e => e.Message)
  Annotate := fun e msg => e.map (fun e => msg ++ ": " ++ e)
  Trace := fun e => e
  New := fun msg => msg
  API2Resource := fun r => (r, none)
  zeroResource := ""

end ResourceClient

namespace Spaces

/-- The library function `strings.Split(s, sep)` for a separator of one
character, on the list of characters of `s`: the pieces between the separators,
one more than there are separators. -/
def splitChars (sep : Char) : List Char → List (List Char)
  | [] => [[]]
  | c :: cs =>
    if c = sep then [] :: splitChars sep cs
    else
      match splitChars sep cs with
      | [] => [[c]]
      | w :: ws => (c :: w) :: ws

/-- The call `strings.Split(s, sep)` for a separator of one character. -/
def Split (s : String) (sep : Char) : List String :=
  (splitChars sep s.toList).map String.mk

/-- The error `convertOldSubnetTagToCIDR` builds with
`errors.New(fmt.Sprintf("%q is not valid SubnetTag", tag))`. -/
inductive ConvertError where
  | notValidSubnetTag (tag : String)
  deriving DecidableEq, Repr

/-- The loop of `convertOldSubnetTagToCIDR`, with the entries of `cidrs` filled
so far. -/
def convertFrom (cidrs : List String) :
    List String → Option (List String) × Option ConvertError
  | [] => (some cidrs, none)
  | tag :: rest =>
    match Split tag '-' with
    | [first, second] =>
      if first ≠ "subnet" then (none, some (ConvertError.notValidSubnetTag tag))
      else convertFrom (cidrs ++ [second]) rest
    | _ => (none, some (ConvertError.notValidSubnetTag tag))

/-- The function `convertOldSubnetTagToCIDR` of
`apiserver/facades/client/spaces/spaces.go`. The result is the Go pair
`([]string, error)`. -/
def convertOldSubnetTagToCIDR (subnetTags : List String) :
    Option (List String) × Option ConvertError :=
  convertFrom [] subnetTags

/-- The form of a legacy subnet tag in the words of the specification: `tag` is
"subnet-" followed by `cidr`, and `cidr` holds no '-'. -/
def isOldSubnetTag (tag cidr : String) : Prop :=
  tag = "subnet-" ++ cidr ∧ '-' ∉ cidr.toList

end Spaces

namespace Uniter

/-- An operation factory with a state of its own: a constructor is given the
state of the factory and hands back, with its Go pair, the state it leaves. -/
structure StatefulFactory (S Op : Type) where
  NewAction : String → S → (Option Op × Option Error) × S
  NewFailAction : String → S → (Option Op × Option Error) × S
  NewSkipHook : HookInfo → S → (Option Op × Option Error) × S

/-- A factory is deterministic when the pair a constructor returns depends on
its argument only, not on the state of the factory. -/
def StatefulFactory.deterministic {S Op : Type} (opFactory : StatefulFactory S Op) : Prop :=
  (∀ id s s2, (opFactory.NewAction id s).1 = (opFactory.NewAction id s2).1)
    ∧ (∀ id s s2, (opFactory.NewFailAction id s).1 = (opFactory.NewFailAction id s2).1)
    ∧ (∀ hook s s2, (opFactory.NewSkipHook hook s).1 = (opFactory.NewSkipHook hook s2).1)

/-- The answers of a factory in a given state, as a factory without state. -/
def StatefulFactory.frozen {S Op : Type} (opFactory : StatefulFactory S Op) (s : S) :
    Factory Op where
  NewAction := fun id => (opFactory.NewAction id s).1
  NewFailAction := fun id => (opFactory.NewFailAction id s).1
  NewSkipHook := fun hook => (opFactory.NewSkipHook hook s).1

/-- Everything a call of `NextOp` can reach: the local state and the snapshot
it is given - whose map `CompletedActions`, pointers `Hook` and `ActionId` and
slice `ActionsPending` are shared with the caller - and the state of the
factory. -/
structure World (S : Type) where
  localState : LocalState
  remoteState : Snapshot
  factoryState : S

/-- The method `actionsResolver.NextOp` of `actions/resolver.go` once more, in
state-passing form: from the world before the call to the run and the world
after it. Every statement of the source reads the local state and the
snapshot and none assigns to them; the factory constructors receive values (a
string, a copy of the hook) and change the state of the factory only. -/
def NextOpWorld {S Op : Type} (opFactory : StatefulFactory S Op) (w : World S) :
    Run Op × World S :=
  if w.remoteState.ActionsBlocked || w.localState.OutdatedRemoteCharm then
    if w.localState.Kind = Kind.RunAction then
      match w.localState.Hook with
      | some hook =>
        let answer := opFactory.NewSkipHook hook w.factoryState
        (⟨[.Infof "found incomplete action %v; ignoring" (.ActionIdPtr w.localState.ActionId),
           .Infof "recommitting prior %q hook" (.HookKind hook.Kind),
           .NewSkipHook hook],
          .ofPair answer.1⟩, { w with factoryState := answer.2 })
      | none =>
        match w.localState.ActionId with
        | none => (⟨[], .panicked⟩, w)
        | some id =>
          let answer := opFactory.NewFailAction id w.factoryState
          (⟨[.NewFailAction id], .ofPair answer.1⟩, { w with factoryState := answer.2 })
    else (⟨[], .returned none (some Error.ErrNoOperation)⟩, w)
  else
    let (next, err) := nextAction w.remoteState.ActionsPending w.localState.CompletedActions
    if err ≠ none ∧ err ≠ some Error.ErrNoOperation then (⟨[], .returned none err⟩, w)
    else
      match w.localState.Kind with
      | Kind.RunHook =>
        if w.localState.Step = Step.Pending ∧ err = none then
          let answer := opFactory.NewAction next w.factoryState
          (⟨[.NewAction next], .ofPair answer.1⟩, { w with factoryState := answer.2 })
        else (⟨[], .returned none (some Error.ErrNoOperation)⟩, w)
      | Kind.RunAction =>
        match w.localState.Hook with
        | some hook =>
          let answer := opFactory.NewSkipHook hook w.factoryState
          (⟨[.Infof "found incomplete action %v; ignoring" (.ActionIdPtr w.localState.ActionId),
             .Infof "recommitting prior %q hook" (.HookKind hook.Kind),
             .NewSkipHook hook],
            .ofPair answer.1⟩, { w with factoryState := answer.2 })
        | none =>
          match w.localState.ActionId with
          | none => (⟨[.Infof "%q hook is nil" (.OpKind Kind.RunAction)], .panicked⟩, w)
          | some id =>
            if next = id then
              let answer := opFactory.NewFailAction id w.factoryState
              (⟨[.Infof "%q hook is nil" (.OpKind Kind.RunAction), .NewFailAction id],
                .ofPair answer.1⟩, { w with factoryState := answer.2 })
            else
              let answer := opFactory.NewAction id w.factoryState
              (⟨[.Infof "%q hook is nil" (.OpKind Kind.RunAction), .NewAction id],
                .ofPair answer.1⟩, { w with factoryState := answer.2 })
      | Kind.Continue =>
        if err ≠ some Error.ErrNoOperation then
          let answer := opFactory.NewAction next w.factoryState
          (⟨[.NewAction next], .ofPair answer.1⟩, { w with factoryState := answer.2 })
        else (⟨[], .returned none (some Error.ErrNoOperation)⟩, w)
      | _ => (⟨[], .returned none (some Error.ErrNoOperation)⟩, w)

/-- A factory for worked examples that counts its calls: an operation is the
text of the call, whatever the count. -/
def countingFactory : StatefulFactory Nat String where
  NewAction := fun id n => ((some ("run-action " ++ id), none), n + 1)
  NewFailAction := fun id n => ((some ("fail-action " ++ id), none), n + 1)
  NewSkipHook := fun h n => ((some ("skip-hook " ++ h.Kind), none), n + 1)

end Uniter

namespace Uniter

/-! ## Helper lemmas -/

theorem nextAction_eq (pending : List String) (completed : Finset String) :
    nextAction pending completed =
      match nextCandidate pending completed with
      | some a => (a, none)
      | none => ("", some Error.ErrNoOperation) := by
  induction pending with
  | nil => rfl
  | cons x xs ih =>
    by_cases hx : x ∈ completed
    · simpa [nextAction, nextCandidate, List.find?, hx] using ih
    · simp [nextAction, nextCandidate, List.find?, hx]

theorem nextAction_of_candidate {pending : List String} {completed : Finset String}
    {a : String} (h : nextCandidate pending completed = some a) :
    nextAction pending completed = (a, none) := by
  rw [nextAction_eq, h]

theorem nextAction_of_no_candidate {pending : List String} {completed : Finset String}
    (h : nextCandidate pending completed = none) :
    nextAction pending completed = ("", some Error.ErrNoOperation) := by
  rw [nextAction_eq, h]

theorem nextCandidate_eq_none_iff (pending : List String) (completed : Finset String) :
    nextCandidate pending completed = none ↔ ∀ a ∈ pending, a ∈ completed := by
  simp [nextCandidate, List.find?_eq_none]

theorem nextCandidate_not_mem {pending : List String} {completed : Finset String}
    {a : String} (h : nextCandidate pending completed = some a) : a ∉ completed := by
  have := List.find?_some h
  simpa using this

/-- The run of `NextOp` when the blocking gate is closed. -/
theorem NextOp_of_blocked {Op : Type} (localState : LocalState) (remoteState : Snapshot)
    (opFactory : Factory Op)
    (h : remoteState.ActionsBlocked = true ∨ localState.OutdatedRemoteCharm = true) :
    NextOp localState remoteState opFactory =
      if localState.Kind = Kind.RunAction then
        match localState.Hook with
        | some hook =>
          ⟨[.Infof "found incomplete action %v; ignoring" (.ActionIdPtr localState.ActionId),
            .Infof "recommitting prior %q hook" (.HookKind hook.Kind),
            .NewSkipHook hook],
           .ofPair (opFactory.NewSkipHook hook)⟩
        | none =>
          match localState.ActionId with
          | none => ⟨[], .panicked⟩
          | some id => ⟨[.NewFailAction id], .ofPair (opFactory.NewFailAction id)⟩
      else ⟨[], .returned none (some Error.ErrNoOperation)⟩ := by
  have hb : (remoteState.ActionsBlocked || localState.OutdatedRemoteCharm) = true := by
    rcases h with h | h <;> simp [h]
  unfold NextOp
  rw [if_pos hb]

/-- The run of `NextOp` when the blocking gate is open and a candidate exists. -/
theorem NextOp_of_candidate {Op : Type} (localState : LocalState) (remoteState : Snapshot)
    (opFactory : Factory Op) (c : String)
    (hB : remoteState.ActionsBlocked = false) (hO : localState.OutdatedRemoteCharm = false)
    (hC : nextCandidate remoteState.ActionsPending localState.CompletedActions = some c) :
    NextOp localState remoteState opFactory =
      match localState.Kind with
      | Kind.RunHook =>
        if localState.Step = Step.Pending then
          ⟨[.NewAction c], .ofPair (opFactory.NewAction c)⟩
        else ⟨[], .returned none (some Error.ErrNoOperation)⟩
      | Kind.RunAction =>
        match localState.Hook with
        | some hook =>
          ⟨[.Infof "found incomplete action %v; ignoring" (.ActionIdPtr localState.ActionId),
            .Infof "recommitting prior %q hook" (.HookKind hook.Kind),
            .NewSkipHook hook],
           .ofPair (opFactory.NewSkipHook hook)⟩
        | none =>
          match localState.ActionId with
          | none => ⟨[.Infof "%q hook is nil" (.OpKind Kind.RunAction)], .panicked⟩
          | some id =>
            if c = id then
              ⟨[.Infof "%q hook is nil" (.OpKind Kind.RunAction), .NewFailAction id],
               .ofPair (opFactory.NewFailAction id)⟩
            else
              ⟨[.Infof "%q hook is nil" (.OpKind Kind.RunAction), .NewAction id],
               .ofPair (opFactory.NewAction id)⟩
      | Kind.Continue => ⟨[.NewAction c], .ofPair (opFactory.NewAction c)⟩
      | _ => ⟨[], .returned none (some Error.ErrNoOperation)⟩ := by
  unfold NextOp
  rw [nextAction_of_candidate hC]
  simp [hB, hO]

/-- The run of `NextOp` when the blocking gate is open and no candidate exists. -/
theorem NextOp_of_no_candidate {Op : Type} (localState : LocalState) (remoteState : Snapshot)
    (opFactory : Factory Op)
    (hB : remoteState.ActionsBlocked = false) (hO : localState.OutdatedRemoteCharm = false)
    (hC : nextCandidate remoteState.ActionsPending localState.CompletedActions = none) :
    NextOp localState remoteState opFactory =
      match localState.Kind with
      | Kind.RunAction =>
        match localState.Hook with
        | some hook =>
          ⟨[.Infof "found incomplete action %v; ignoring" (.ActionIdPtr localState.ActionId),
            .Infof "recommitting prior %q hook" (.HookKind hook.Kind),
            .NewSkipHook hook],
           .ofPair (opFactory.NewSkipHook hook)⟩
        | none =>
          match localState.ActionId with
          | none => ⟨[.Infof "%q hook is nil" (.OpKind Kind.RunAction)], .panicked⟩
          | some id =>
            if "" = id then
              ⟨[.Infof "%q hook is nil" (.OpKind Kind.RunAction), .NewFailAction id],
               .ofPair (opFactory.NewFailAction id)⟩
            else
              ⟨[.Infof "%q hook is nil" (.OpKind Kind.RunAction), .NewAction id],
               .ofPair (opFactory.NewAction id)⟩
      | _ => ⟨[], .returned none (some Error.ErrNoOperation)⟩ := by
  unfold NextOp
  rw [nextAction_of_no_candidate hC]
  cases hK : localState.Kind <;> simp [hB, hO]

/-! ## The actions resolver -/

/-- C1. Crash-safety rule: when the last recorded operation is RunAction with no
hook, the action id is present and the next candidate is that very id, the run
returns exactly what `NewFailAction` gives for that id, its only factory call is
that one, and `NewAction` is never called; the blocking flags do not matter. -/
theorem NextOp_crash_safety {Op : Type} (localState : LocalState) (remoteState : Snapshot)
    (opFactory : Factory Op) (id : String)
    (hKind : localState.Kind = Kind.RunAction)
    (hHook : localState.Hook = none)
    (hId : localState.ActionId = some id)
    (hCand : nextCandidate remoteState.ActionsPending localState.CompletedActions = some id) :
    (NextOp localState remoteState opFactory).completion
        = Completion.ofPair (opFactory.NewFailAction id)
      ∧ (NextOp localState remoteState opFactory).factoryCalls = [Event.NewFailAction id]
      ∧ ∀ a, Event.NewAction a ∉ (NextOp localState remoteState opFactory).trace := by
  by_cases hb : remoteState.ActionsBlocked = true ∨ localState.OutdatedRemoteCharm = true
  · rw [NextOp_of_blocked _ _ _ hb]
    simp [hKind, hHook, hId, Run.factoryCalls, Event.isFactoryCall]
  · have hB : remoteState.ActionsBlocked = false := by
      cases h : remoteState.ActionsBlocked <;> simp_all
    have hO : localState.OutdatedRemoteCharm = false := by
      cases h : localState.OutdatedRemoteCharm <;> simp_all
    rw [NextOp_of_candidate _ _ _ id hB hO hCand]
    simp [hKind, hHook, hId, Run.factoryCalls, Event.isFactoryCall]

/-- Scenario B, with the gate open and with it closed. -/
theorem NextOp_crash_safety_witness :
    ((NextOp ⟨Kind.RunAction, Step.Queued, none, some "a1", ∅, false⟩
        ⟨["a1", "a2"], false, ""⟩ textFactory).completion
        = Completion.ofPair (textFactory.NewFailAction "a1")
      ∧ (NextOp ⟨Kind.RunAction, Step.Queued, none, some "a1", ∅, false⟩
        ⟨["a1", "a2"], false, ""⟩ textFactory).factoryCalls = [Event.NewFailAction "a1"]
      ∧ ∀ a, Event.NewAction a ∉ (NextOp ⟨Kind.RunAction, Step.Queued, none, some "a1", ∅, false⟩
        ⟨["a1", "a2"], false, ""⟩ textFactory).trace) :=
  NextOp_crash_safety ⟨Kind.RunAction, Step.Queued, none, some "a1", ∅, false⟩
    ⟨["a1", "a2"], false, ""⟩ textFactory "a1" rfl rfl rfl (by decide)

/-- C2. Hook precedence: when the last recorded operation is RunAction and a hook
is recorded, the run returns exactly what `NewSkipHook` gives for that hook, its
only factory call is that one, and neither `NewAction` nor `NewFailAction` is
called, whatever the pending list, the completed set, the blocking flags and the
action id. -/
theorem NextOp_hook_precedence {Op : Type} (localState : LocalState) (remoteState : Snapshot)
    (opFactory : Factory Op) (hook : HookInfo)
    (hKind : localState.Kind = Kind.RunAction)
    (hHook : localState.Hook = some hook) :
    (NextOp localState remoteState opFactory).completion
        = Completion.ofPair (opFactory.NewSkipHook hook)
      ∧ (NextOp localState remoteState opFactory).factoryCalls = [Event.NewSkipHook hook]
      ∧ ∀ a, Event.NewAction a ∉ (NextOp localState remoteState opFactory).trace
          ∧ Event.NewFailAction a ∉ (NextOp localState remoteState opFactory).trace := by
  by_cases hb : remoteState.ActionsBlocked = true ∨ localState.OutdatedRemoteCharm = true
  · rw [NextOp_of_blocked _ _ _ hb]
    simp [hKind, hHook, Run.factoryCalls, Event.isFactoryCall]
  · have hB : remoteState.ActionsBlocked = false := by
      cases h : remoteState.ActionsBlocked <;> simp_all
    have hO : localState.OutdatedRemoteCharm = false := by
      cases h : localState.OutdatedRemoteCharm <;> simp_all
    cases hC : nextCandidate remoteState.ActionsPending localState.CompletedActions with
    | none =>
      rw [NextOp_of_no_candidate _ _ _ hB hO hC]
      simp [hKind, hHook, Run.factoryCalls, Event.isFactoryCall]
    | some c =>
      rw [NextOp_of_candidate _ _ _ c hB hO hC]
      simp [hKind, hHook, Run.factoryCalls, Event.isFactoryCall]

/-- Scenario C. -/
theorem NextOp_hook_precedence_witness :
    ((NextOp ⟨Kind.RunAction, Step.Queued, some ⟨"config-changed", ""⟩, some "a1", ∅, false⟩
        ⟨["a1", "a2"], false, ""⟩ textFactory).completion
        = Completion.ofPair (textFactory.NewSkipHook ⟨"config-changed", ""⟩)
      ∧ (NextOp ⟨Kind.RunAction, Step.Queued, some ⟨"config-changed", ""⟩, some "a1", ∅, false⟩
        ⟨["a1", "a2"], false, ""⟩ textFactory).factoryCalls
        = [Event.NewSkipHook ⟨"config-changed", ""⟩]
      ∧ ∀ a, Event.NewAction a ∉
          (NextOp ⟨Kind.RunAction, Step.Queued, some ⟨"config-changed", ""⟩, some "a1", ∅, false⟩
            ⟨["a1", "a2"], false, ""⟩ textFactory).trace
          ∧ Event.NewFailAction a ∉
          (NextOp ⟨Kind.RunAction, Step.Queued, some ⟨"config-changed", ""⟩, some "a1", ∅, false⟩
            ⟨["a1", "a2"], false, ""⟩ textFactory).trace) :=
  NextOp_hook_precedence
    ⟨Kind.RunAction, Step.Queued, some ⟨"config-changed", ""⟩, some "a1", ∅, false⟩
    ⟨["a1", "a2"], false, ""⟩ textFactory ⟨"config-changed", ""⟩ rfl rfl

/-- C3. Blocking gate: when `ActionsBlocked` or `OutdatedRemoteCharm` is set, the
run never calls `NewAction`, and every factory call it makes is a `NewSkipHook`
or a `NewFailAction`, for every kind, step, pending list and completed set. -/
theorem NextOp_blocked_never_starts {Op : Type} (localState : LocalState)
    (remoteState : Snapshot) (opFactory : Factory Op)
    (h : remoteState.ActionsBlocked = true ∨ localState.OutdatedRemoteCharm = true) :
    (∀ a, Event.NewAction a ∉ (NextOp localState remoteState opFactory).trace)
      ∧ ∀ e ∈ (NextOp localState remoteState opFactory).factoryCalls,
          (∃ hook, e = Event.NewSkipHook hook) ∨ (∃ id, e = Event.NewFailAction id) := by
  rw [NextOp_of_blocked _ _ _ h]
  by_cases hK : localState.Kind = Kind.RunAction
  · cases hH : localState.Hook with
    | some hook => simp [hK, Run.factoryCalls, Event.isFactoryCall]
    | none =>
      cases hI : localState.ActionId with
      | none => simp [hK, Run.factoryCalls]
      | some id => simp [hK, Run.factoryCalls, Event.isFactoryCall]
  · simp [hK, Run.factoryCalls]

/-- A blocked snapshot with an action in flight and actions pending. -/
theorem NextOp_blocked_never_starts_witness :
    ((∀ a, Event.NewAction a ∉
        (NextOp ⟨Kind.RunAction, Step.Pending, none, some "a7", ∅, false⟩
          ⟨["a1", "a2"], true, ""⟩ textFactory).trace)
      ∧ ∀ e ∈ (NextOp ⟨Kind.RunAction, Step.Pending, none, some "a7", ∅, false⟩
          ⟨["a1", "a2"], true, ""⟩ textFactory).factoryCalls,
          (∃ hook, e = Event.NewSkipHook hook) ∨ (∃ id, e = Event.NewFailAction id)) :=
  NextOp_blocked_never_starts ⟨Kind.RunAction, Step.Pending, none, some "a7", ∅, false⟩
    ⟨["a1", "a2"], true, ""⟩ textFactory (Or.inl rfl)

/-- C4. Candidate selection: `nextAction` returns `(a, nil)` exactly when `a` is
the entry at the least index whose entry is not in the completed set (every
earlier entry is completed, `a` is not); it returns `("", ErrNoOperation)`
exactly when every pending entry is completed (the empty list included); and it
returns nothing else. -/
theorem nextAction_spec (pendingActions : List String) (completedActions : Finset String) :
    (∀ a, nextAction pendingActions completedActions = (a, none) ↔
        ∃ i : Nat, pendingActions[i]? = some a ∧ a ∉ completedActions
          ∧ ∀ j : Nat, j < i → ∀ b, pendingActions[j]? = some b → b ∈ completedActions)
      ∧ (nextAction pendingActions completedActions = ("", some Error.ErrNoOperation) ↔
          ∀ a ∈ pendingActions, a ∈ completedActions)
      ∧ ((∃ a, nextAction pendingActions completedActions = (a, none))
          ∨ nextAction pendingActions completedActions = ("", some Error.ErrNoOperation)) := by
  induction pendingActions with
  | nil => simp [nextAction]
  | cons x xs ih =>
    obtain ⟨ih1, ih2, ih3⟩ := ih
    by_cases hx : x ∈ completedActions
    · have hstep : nextAction (x :: xs) completedActions = nextAction xs completedActions := by
        simp [nextAction, hx]
      refine ⟨fun a => ?_, ?_, ?_⟩
      · rw [hstep, ih1 a]
        constructor
        · rintro ⟨i, hi, ha, hlt⟩
          refine ⟨i + 1, by simpa using hi, ha, ?_⟩
          intro j hj b hb
          cases j with
          | zero => simp at hb; subst hb; exact hx
          | succ k => exact hlt k (by omega) b (by simpa using hb)
        · rintro ⟨i, hi, ha, hlt⟩
          cases i with
          | zero => simp at hi; subst hi; exact absurd hx ha
          | succ k =>
            refine ⟨k, by simpa using hi, ha, ?_⟩
            intro j hj b hb
            exact hlt (j + 1) (by omega) b (by simpa using hb)
      · rw [hstep, ih2]; simp [hx]
      · rw [hstep]; exact ih3
    · have hstep : nextAction (x :: xs) completedActions = (x, none) := by
        simp [nextAction, hx]
      refine ⟨fun a => ?_, ?_, ?_⟩
      · rw [hstep]
        constructor
        · intro h
          have hxa : x = a := by simpa using h
          subst hxa
          exact ⟨0, by simp, hx, by intro j hj; omega⟩
        · rintro ⟨i, hi, ha, hlt⟩
          cases i with
          | zero => simp at hi; subst hi; rfl
          | succ k => exact absurd (hlt 0 (by omega) x (by simp)) hx
      · rw [hstep]; simp [hx]
      · exact Or.inl ⟨x, hstep⟩

/-- C5. Continue dispatch: with the gate open and kind Continue, the run returns
what `NewAction` gives for the next candidate when there is one, that call being
its only call; when every pending action is already completed it returns
`(nil, ErrNoOperation)` and calls nothing. -/
theorem NextOp_continue {Op : Type} (localState : LocalState) (remoteState : Snapshot)
    (opFactory : Factory Op)
    (hB : remoteState.ActionsBlocked = false)
    (hO : localState.OutdatedRemoteCharm = false)
    (hKind : localState.Kind = Kind.Continue) :
    (∀ c, nextCandidate remoteState.ActionsPending localState.CompletedActions = some c →
        NextOp localState remoteState opFactory
          = ⟨[Event.NewAction c], Completion.ofPair (opFactory.NewAction c)⟩)
      ∧ ((∀ a ∈ remoteState.ActionsPending, a ∈ localState.CompletedActions) →
        NextOp localState remoteState opFactory
          = ⟨[], Completion.returned none (some Error.ErrNoOperation)⟩) := by
  constructor
  · intro c hC
    rw [NextOp_of_candidate _ _ _ c hB hO hC]
    simp [hKind]
  · intro hAll
    have hC := (nextCandidate_eq_none_iff _ _).mpr hAll
    rw [NextOp_of_no_candidate _ _ _ hB hO hC]
    simp [hKind]

/-- Scenario A and scenario F. -/
theorem NextOp_continue_witness :
    NextOp ⟨Kind.Continue, Step.Queued, none, none, ∅, false⟩ ⟨["a1", "a2"], false, ""⟩
        textFactory
        = ⟨[Event.NewAction "a1"], Completion.returned (some "run-action a1") none⟩
      ∧ NextOp ⟨Kind.Continue, Step.Queued, none, none, {"a1", "a2"}, false⟩
          ⟨["a1", "a2"], false, ""⟩ textFactory
        = ⟨[], Completion.returned none (some Error.ErrNoOperation)⟩ :=
  ⟨(NextOp_continue ⟨Kind.Continue, Step.Queued, none, none, ∅, false⟩
      ⟨["a1", "a2"], false, ""⟩ textFactory rfl rfl rfl).1 "a1" (by decide),
   (NextOp_continue ⟨Kind.Continue, Step.Queued, none, none, {"a1", "a2"}, false⟩
      ⟨["a1", "a2"], false, ""⟩ textFactory rfl rfl rfl).2 (by decide)⟩

/-- C6. RunHook dispatch: with the gate open and kind RunHook, the run returns what
`NewAction` gives for the next candidate, as its only call, when the step is
Pending and a candidate exists; in every other case (step Queued or Done, or no
candidate) it returns `(nil, ErrNoOperation)` and calls nothing. So the run calls
`NewAction c` if and only if the step is Pending and `c` is the next candidate. -/
theorem NextOp_runHook {Op : Type} (localState : LocalState) (remoteState : Snapshot)
    (opFactory : Factory Op)
    (hB : remoteState.ActionsBlocked = false)
    (hO : localState.OutdatedRemoteCharm = false)
    (hKind : localState.Kind = Kind.RunHook) :
    (∀ c, localState.Step = Step.Pending →
        nextCandidate remoteState.ActionsPending localState.CompletedActions = some c →
        NextOp localState remoteState opFactory
          = ⟨[Event.NewAction c], Completion.ofPair (opFactory.NewAction c)⟩)
      ∧ ((localState.Step ≠ Step.Pending
          ∨ nextCandidate remoteState.ActionsPending localState.CompletedActions = none) →
        NextOp localState remoteState opFactory
          = ⟨[], Completion.returned none (some Error.ErrNoOperation)⟩)
      ∧ (∀ c, (NextOp localState remoteState opFactory).factoryCalls = [Event.NewAction c] ↔
          localState.Step = Step.Pending
            ∧ nextCandidate remoteState.ActionsPending localState.CompletedActions = some c) := by
  cases hC : nextCandidate remoteState.ActionsPending localState.CompletedActions with
  | none =>
    rw [NextOp_of_no_candidate _ _ _ hB hO hC]
    simp [hKind, Run.factoryCalls]
  | some d =>
    rw [NextOp_of_candidate _ _ _ d hB hO hC]
    by_cases hS : localState.Step = Step.Pending
    · simp [hKind, hS, Run.factoryCalls, Event.isFactoryCall]
    · simp [hKind, hS, Run.factoryCalls]

/-- A hook in error (step Pending) with an action pending; the same with step
Done. -/
theorem NextOp_runHook_witness :
    NextOp ⟨Kind.RunHook, Step.Pending, none, none, ∅, false⟩ ⟨["a1", "a2"], false, ""⟩
        textFactory
        = ⟨[Event.NewAction "a1"], Completion.returned (some "run-action a1") none⟩
      ∧ NextOp ⟨Kind.RunHook, Step.Done, none, none, ∅, false⟩ ⟨["a1", "a2"], false, ""⟩
          textFactory
        = ⟨[], Completion.returned none (some Error.ErrNoOperation)⟩ :=
  ⟨(NextOp_runHook ⟨Kind.RunHook, Step.Pending, none, none, ∅, false⟩
      ⟨["a1", "a2"], false, ""⟩ textFactory rfl rfl rfl).1 "a1" rfl (by decide),
   (NextOp_runHook ⟨Kind.RunHook, Step.Done, none, none, ∅, false⟩
      ⟨["a1", "a2"], false, ""⟩ textFactory rfl rfl rfl).2.1 (Or.inl (by decide))⟩

/-- C7. Stale in-flight action: with the gate open, kind RunAction, no hook, an
action id present and a next candidate different from it, the run returns what
`NewAction` gives for the recorded action id (not for the candidate), that being
its only factory call, and `NewFailAction` is not called. -/
theorem NextOp_stale_action_resumed {Op : Type} (localState : LocalState)
    (remoteState : Snapshot) (opFactory : Factory Op) (id c : String)
    (hB : remoteState.ActionsBlocked = false)
    (hO : localState.OutdatedRemoteCharm = false)
    (hKind : localState.Kind = Kind.RunAction)
    (hHook : localState.Hook = none)
    (hId : localState.ActionId = some id)
    (hCand : nextCandidate remoteState.ActionsPending localState.CompletedActions = some c)
    (hne : c ≠ id) :
    (NextOp localState remoteState opFactory).completion
        = Completion.ofPair (opFactory.NewAction id)
      ∧ (NextOp localState remoteState opFactory).factoryCalls = [Event.NewAction id]
      ∧ ∀ a, Event.NewFailAction a ∉ (NextOp localState remoteState opFactory).trace := by
  rw [NextOp_of_candidate _ _ _ c hB hO hCand]
  simp [hKind, hHook, hId, hne, Run.factoryCalls, Event.isFactoryCall]

/-- The recorded action a1 is completed remotely and a2 is the next candidate. -/
theorem NextOp_stale_action_resumed_witness :
    ((NextOp ⟨Kind.RunAction, Step.Pending, none, some "a1", {"a1"}, false⟩
        ⟨["a1", "a2"], false, ""⟩ textFactory).completion
        = Completion.ofPair (textFactory.NewAction "a1")
      ∧ (NextOp ⟨Kind.RunAction, Step.Pending, none, some "a1", {"a1"}, false⟩
        ⟨["a1", "a2"], false, ""⟩ textFactory).factoryCalls = [Event.NewAction "a1"]
      ∧ ∀ a, Event.NewFailAction a ∉
          (NextOp ⟨Kind.RunAction, Step.Pending, none, some "a1", {"a1"}, false⟩
            ⟨["a1", "a2"], false, ""⟩ textFactory).trace) :=
  NextOp_stale_action_resumed ⟨Kind.RunAction, Step.Pending, none, some "a1", {"a1"}, false⟩
    ⟨["a1", "a2"], false, ""⟩ textFactory "a1" "a2" rfl rfl rfl rfl rfl (by decide) (by decide)

/-- C8, as stated, fails: with the gate open, kind RunAction, no hook, every
pending action completed and the recorded action id the empty string, the
candidate value `nextAction` hands back is also the empty string, so the run
calls `NewFailAction ""` and not `NewAction ""`. -/
theorem NextOp_inflight_recovery_counterexample :
    (∀ a ∈ (⟨["a1"], false, ""⟩ : Snapshot).ActionsPending, a ∈ ({"a1"} : Finset String))
      ∧ NextOp ⟨Kind.RunAction, Step.Pending, none, some "", {"a1"}, false⟩
          ⟨["a1"], false, ""⟩ textFactory
        = ⟨[Event.Infof "%q hook is nil" (LogArg.OpKind Kind.RunAction), Event.NewFailAction ""],
           Completion.returned (some "fail-action ") none⟩
      ∧ (NextOp ⟨Kind.RunAction, Step.Pending, none, some "", {"a1"}, false⟩
          ⟨["a1"], false, ""⟩ textFactory).completion
        ≠ Completion.ofPair (textFactory.NewAction "") := by
  decide

/-- C8, amended. In-flight recovery when nothing is pending: with the gate open,
kind RunAction, no hook, a recorded action id that is not the empty string, and
every pending action already completed (the empty list included), the run does
not fall through to `(nil, ErrNoOperation)`: it returns what `NewAction` gives
for the recorded action id, that being its only factory call. -/
theorem NextOp_inflight_recovery {Op : Type} (localState : LocalState)
    (remoteState : Snapshot) (opFactory : Factory Op) (id : String)
    (hB : remoteState.ActionsBlocked = false)
    (hO : localState.OutdatedRemoteCharm = false)
    (hKind : localState.Kind = Kind.RunAction)
    (hHook : localState.Hook = none)
    (hId : localState.ActionId = some id)
    (hne : id ≠ "")
    (hAll : ∀ a ∈ remoteState.ActionsPending, a ∈ localState.CompletedActions) :
    (NextOp localState remoteState opFactory).completion
        = Completion.ofPair (opFactory.NewAction id)
      ∧ (NextOp localState remoteState opFactory).factoryCalls = [Event.NewAction id] := by
  have hC := (nextCandidate_eq_none_iff _ _).mpr hAll
  rw [NextOp_of_no_candidate _ _ _ hB hO hC]
  simp [hKind, hHook, hId, Ne.symm hne, Run.factoryCalls, Event.isFactoryCall]

/-- The recorded action a2 with the only pending action a1 completed, and with
nothing pending at all. -/
theorem NextOp_inflight_recovery_witness :
    ((NextOp ⟨Kind.RunAction, Step.Pending, none, some "a2", {"a1"}, false⟩
        ⟨["a1"], false, ""⟩ textFactory).completion
        = Completion.ofPair (textFactory.NewAction "a2")
      ∧ (NextOp ⟨Kind.RunAction, Step.Pending, none, some "a2", {"a1"}, false⟩
        ⟨["a1"], false, ""⟩ textFactory).factoryCalls = [Event.NewAction "a2"]) :=
  NextOp_inflight_recovery ⟨Kind.RunAction, Step.Pending, none, some "a2", {"a1"}, false⟩
    ⟨["a1"], false, ""⟩ textFactory "a2" rfl rfl rfl rfl rfl (by decide) (by decide)

/-- C9. Blocking-gate outcome table: when `ActionsBlocked` or `OutdatedRemoteCharm`
is set, the run does not depend on the pending list, the completed set or the
step (two blocked inputs with the same kind, hook and action id have the same
run); it is `(nil, ErrNoOperation)` with no call when the kind is not RunAction;
it is the result of `NewFailAction` on the action id, as the only call, when
the kind is RunAction, there is no hook and the action id is present; and it is
the result of `NewSkipHook`, as the only factory call, when the kind is
RunAction and a hook is recorded. -/
theorem NextOp_blocked_table {Op : Type} (localState localState2 : LocalState)
    (remoteState remoteState2 : Snapshot) (opFactory : Factory Op)
    (h : remoteState.ActionsBlocked = true ∨ localState.OutdatedRemoteCharm = true)
    (h2 : remoteState2.ActionsBlocked = true ∨ localState2.OutdatedRemoteCharm = true) :
    (localState.Kind = localState2.Kind → localState.Hook = localState2.Hook →
        localState.ActionId = localState2.ActionId →
        NextOp localState remoteState opFactory = NextOp localState2 remoteState2 opFactory)
      ∧ (localState.Kind ≠ Kind.RunAction →
        NextOp localState remoteState opFactory
          = ⟨[], Completion.returned none (some Error.ErrNoOperation)⟩)
      ∧ (∀ id, localState.Kind = Kind.RunAction → localState.Hook = none →
        localState.ActionId = some id →
        NextOp localState remoteState opFactory
          = ⟨[Event.NewFailAction id], Completion.ofPair (opFactory.NewFailAction id)⟩)
      ∧ (∀ hook, localState.Kind = Kind.RunAction → localState.Hook = some hook →
        (NextOp localState remoteState opFactory).factoryCalls = [Event.NewSkipHook hook]
          ∧ (NextOp localState remoteState opFactory).completion
            = Completion.ofPair (opFactory.NewSkipHook hook)) := by
  rw [NextOp_of_blocked _ _ _ h, NextOp_of_blocked _ _ _ h2]
  refine ⟨?_, ?_, ?_, ?_⟩
  · intro hK hH hI
    rw [hK, hH, hI]
  · intro hK
    simp [hK]
  · intro id hK hH hI
    simp [hK, hH, hI]
  · intro hook hK hH
    simp [hK, hH, Run.factoryCalls, Event.isFactoryCall]

/-- Scenario D against an outdated-charm input with a different pending list,
completed set and step. -/
theorem NextOp_blocked_table_witness :
    NextOp ⟨Kind.Continue, Step.Queued, none, none, ∅, false⟩ ⟨["a1", "a2"], true, ""⟩
        textFactory
      = NextOp ⟨Kind.Continue, Step.Done, none, none, {"a1"}, true⟩ ⟨[], false, ""⟩
          textFactory
      ∧ NextOp ⟨Kind.Continue, Step.Queued, none, none, ∅, false⟩ ⟨["a1", "a2"], true, ""⟩
          textFactory
        = ⟨[], Completion.returned none (some Error.ErrNoOperation)⟩ :=
  ⟨(NextOp_blocked_table ⟨Kind.Continue, Step.Queued, none, none, ∅, false⟩
      ⟨Kind.Continue, Step.Done, none, none, {"a1"}, true⟩ ⟨["a1", "a2"], true, ""⟩
      ⟨[], false, ""⟩ textFactory (Or.inl rfl) (Or.inr rfl)).1 rfl rfl rfl,
   (NextOp_blocked_table ⟨Kind.Continue, Step.Queued, none, none, ∅, false⟩
      ⟨Kind.Continue, Step.Done, none, none, {"a1"}, true⟩ ⟨["a1", "a2"], true, ""⟩
      ⟨[], false, ""⟩ textFactory (Or.inl rfl) (Or.inr rfl)).2.1 (by decide)⟩

/-- C10, as stated, fails: with kind RunAction, no hook and no action id the run
dereferences the nil action id. It makes no factory call and does not return
`(nil, ErrNoOperation)`: it does not return. -/
theorem NextOp_single_call_counterexample :
    NextOp ⟨Kind.RunAction, Step.Pending, none, none, ∅, false⟩ ⟨["a1"], false, ""⟩
        textFactory
        = ⟨[Event.Infof "%q hook is nil" (LogArg.OpKind Kind.RunAction)], Completion.panicked⟩
      ∧ ¬ ((∃ e, (NextOp ⟨Kind.RunAction, Step.Pending, none, none, ∅, false⟩
              ⟨["a1"], false, ""⟩ textFactory).factoryCalls = [e])
          ∨ ((NextOp ⟨Kind.RunAction, Step.Pending, none, none, ∅, false⟩
              ⟨["a1"], false, ""⟩ textFactory).factoryCalls = []
            ∧ (NextOp ⟨Kind.RunAction, Step.Pending, none, none, ∅, false⟩
              ⟨["a1"], false, ""⟩ textFactory).completion
              = Completion.returned none (some Error.ErrNoOperation))) := by
  have hrun : NextOp ⟨Kind.RunAction, Step.Pending, none, none, ∅, false⟩
      ⟨["a1"], false, ""⟩ textFactory
      = ⟨[Event.Infof "%q hook is nil" (LogArg.OpKind Kind.RunAction)],
         Completion.panicked⟩ := by
    decide
  refine ⟨hrun, ?_⟩
  rw [hrun]
  simp [Run.factoryCalls, Event.isFactoryCall]

/-- The shapes of a run that does not dereference a nil action id: it calls
nothing and returns `(nil, ErrNoOperation)`, or it calls one constructor once
and returns the pair that call gave. -/
theorem NextOp_call_cases {Op : Type} (localState : LocalState) (remoteState : Snapshot)
    (opFactory : Factory Op)
    (h : ¬ (localState.Kind = Kind.RunAction ∧ localState.Hook = none
          ∧ localState.ActionId = none)) :
    ((NextOp localState remoteState opFactory).factoryCalls = []
        ∧ (NextOp localState remoteState opFactory).completion
          = Completion.returned none (some Error.ErrNoOperation))
      ∨ (∃ id, (NextOp localState remoteState opFactory).factoryCalls = [Event.NewAction id]
        ∧ (NextOp localState remoteState opFactory).completion
          = Completion.ofPair (opFactory.NewAction id))
      ∨ (∃ id, (NextOp localState remoteState opFactory).factoryCalls = [Event.NewFailAction id]
        ∧ (NextOp localState remoteState opFactory).completion
          = Completion.ofPair (opFactory.NewFailAction id))
      ∨ (∃ hook, (NextOp localState remoteState opFactory).factoryCalls
          = [Event.NewSkipHook hook]
        ∧ (NextOp localState remoteState opFactory).completion
          = Completion.ofPair (opFactory.NewSkipHook hook)) := by
  by_cases hb : remoteState.ActionsBlocked = true ∨ localState.OutdatedRemoteCharm = true
  · rw [NextOp_of_blocked _ _ _ hb]
    by_cases hK : localState.Kind = Kind.RunAction
    · cases hH : localState.Hook with
      | some hook => simp [hK, Run.factoryCalls, Event.isFactoryCall]
      | none =>
        cases hI : localState.ActionId with
        | none => exact absurd ⟨hK, hH, hI⟩ h
        | some id => simp [hK, Run.factoryCalls, Event.isFactoryCall]
    · simp [hK, Run.factoryCalls]
  · have hB : remoteState.ActionsBlocked = false := by
      cases h : remoteState.ActionsBlocked <;> simp_all
    have hO : localState.OutdatedRemoteCharm = false := by
      cases h : localState.OutdatedRemoteCharm <;> simp_all
    cases hC : nextCandidate remoteState.ActionsPending localState.CompletedActions with
    | none =>
      rw [NextOp_of_no_candidate _ _ _ hB hO hC]
      cases hK : localState.Kind <;> try simp [Run.factoryCalls]
      cases hH : localState.Hook with
      | some hook => simp [Run.factoryCalls, Event.isFactoryCall]
      | none =>
        cases hI : localState.ActionId with
        | none => exact absurd ⟨hK, hH, hI⟩ h
        | some id =>
          by_cases hE : "" = id <;> simp [hE, Run.factoryCalls, Event.isFactoryCall]
    | some c =>
      rw [NextOp_of_candidate _ _ _ c hB hO hC]
      cases hK : localState.Kind <;> try simp [Run.factoryCalls, Event.isFactoryCall]
      · cases hH : localState.Hook with
        | some hook => simp [Run.factoryCalls, Event.isFactoryCall]
        | none =>
          cases hI : localState.ActionId with
          | none => exact absurd ⟨hK, hH, hI⟩ h
          | some id =>
            by_cases hE : c = id <;> simp [hE, Run.factoryCalls, Event.isFactoryCall]
      · by_cases hS : localState.Step = Step.Pending <;>
          simp [hS, Run.factoryCalls, Event.isFactoryCall]

/-- The run on the input that dereferences a nil action id: it panics, and it
has made no factory call. -/
theorem NextOp_of_no_action_id {Op : Type} (localState : LocalState) (remoteState : Snapshot)
    (opFactory : Factory Op)
    (hK : localState.Kind = Kind.RunAction) (hH : localState.Hook = none)
    (hI : localState.ActionId = none) :
    (NextOp localState remoteState opFactory).completion = Completion.panicked
      ∧ (NextOp localState remoteState opFactory).factoryCalls = [] := by
  by_cases hb : remoteState.ActionsBlocked = true ∨ localState.OutdatedRemoteCharm = true
  · rw [NextOp_of_blocked _ _ _ hb]
    simp [hK, hH, hI, Run.factoryCalls]
  · have hB : remoteState.ActionsBlocked = false := by
      cases h : remoteState.ActionsBlocked <;> simp_all
    have hO : localState.OutdatedRemoteCharm = false := by
      cases h : localState.OutdatedRemoteCharm <;> simp_all
    cases hC : nextCandidate remoteState.ActionsPending localState.CompletedActions with
    | none =>
      rw [NextOp_of_no_candidate _ _ _ hB hO hC]
      simp [hK, hH, hI, Run.factoryCalls, Event.isFactoryCall]
    | some c =>
      rw [NextOp_of_candidate _ _ _ c hB hO hC]
      simp [hK, hH, hI, Run.factoryCalls, Event.isFactoryCall]

/-- C10, amended. On every input the run makes at most one factory call, so it
never calls two constructors, and an operation it returns that is not nil is
the one the single call gave, with the error that call gave. On the input
with kind RunAction and neither a hook nor an action id it makes no factory
call. On every other input it calls nothing and returns `(nil,
ErrNoOperation)`, or it calls exactly one of `NewAction`, `NewFailAction`,
`NewSkipHook` exactly once and returns the pair that call gave. -/
theorem NextOp_single_call {Op : Type} (localState : LocalState) (remoteState : Snapshot)
    (opFactory : Factory Op) :
    (NextOp localState remoteState opFactory).factoryCalls.length ≤ 1
      ∧ (∀ op err, (NextOp localState remoteState opFactory).completion
            = Completion.returned (some op) err →
          ∃ e, (NextOp localState remoteState opFactory).factoryCalls = [e]
            ∧ opFactory.answer e = some (some op, err))
      ∧ ((localState.Kind = Kind.RunAction ∧ localState.Hook = none
            ∧ localState.ActionId = none) →
          (NextOp localState remoteState opFactory).factoryCalls = [])
      ∧ (¬ (localState.Kind = Kind.RunAction ∧ localState.Hook = none
            ∧ localState.ActionId = none) →
          ((NextOp localState remoteState opFactory).factoryCalls = []
            ∧ (NextOp localState remoteState opFactory).completion
              = Completion.returned none (some Error.ErrNoOperation))
          ∨ (∃ id, (NextOp localState remoteState opFactory).factoryCalls
              = [Event.NewAction id]
            ∧ (NextOp localState remoteState opFactory).completion
              = Completion.ofPair (opFactory.NewAction id))
          ∨ (∃ id, (NextOp localState remoteState opFactory).factoryCalls
              = [Event.NewFailAction id]
            ∧ (NextOp localState remoteState opFactory).completion
              = Completion.ofPair (opFactory.NewFailAction id))
          ∨ (∃ hook, (NextOp localState remoteState opFactory).factoryCalls
              = [Event.NewSkipHook hook]
            ∧ (NextOp localState remoteState opFactory).completion
              = Completion.ofPair (opFactory.NewSkipHook hook))) := by
  have hpair : ∀ (p : Option Op × Option Error) (op : Op) (err : Option Error),
      Completion.ofPair p = Completion.returned (some op) err → p = (some op, err) := by
    intro p op err hp
    unfold Completion.ofPair at hp
    injection hp with h1 h2
    exact Prod.ext h1 h2
  by_cases hx : localState.Kind = Kind.RunAction ∧ localState.Hook = none
      ∧ localState.ActionId = none
  · obtain ⟨hc, hf⟩ := NextOp_of_no_action_id localState remoteState opFactory hx.1 hx.2.1 hx.2.2
    refine ⟨by rw [hf]; simp, ?_, fun _ => hf, fun hn => absurd hx hn⟩
    intro op err hret
    rw [hc] at hret
    cases hret
  · have hcases := NextOp_call_cases localState remoteState opFactory hx
    refine ⟨?_, ?_, fun h => absurd h hx, fun _ => hcases⟩
    · rcases hcases with ⟨hf, _⟩ | ⟨id, hf, _⟩ | ⟨id, hf, _⟩ | ⟨hook, hf, _⟩ <;>
        rw [hf] <;> simp
    · intro op err hret
      rcases hcases with ⟨_, hc⟩ | ⟨id, hf, hc⟩ | ⟨id, hf, hc⟩ | ⟨hook, hf, hc⟩
      · rw [hc] at hret
        cases hret
      · rw [hc] at hret
        exact ⟨Event.NewAction id, hf, by simp [Factory.answer, hpair _ _ _ hret]⟩
      · rw [hc] at hret
        exact ⟨Event.NewFailAction id, hf, by simp [Factory.answer, hpair _ _ _ hret]⟩
      · rw [hc] at hret
        exact ⟨Event.NewSkipHook hook, hf, by simp [Factory.answer, hpair _ _ _ hret]⟩

/-- Scenario B: one call, of `NewFailAction`, and the operation returned is the
one that call gave. -/
theorem NextOp_single_call_witness :
    (NextOp ⟨Kind.RunAction, Step.Queued, none, some "a1", ∅, false⟩
        ⟨["a1", "a2"], false, ""⟩ textFactory).factoryCalls.length ≤ 1
      ∧ (∀ op err, (NextOp ⟨Kind.RunAction, Step.Queued, none, some "a1", ∅, false⟩
            ⟨["a1", "a2"], false, ""⟩ textFactory).completion
            = Completion.returned (some op) err →
          ∃ e, (NextOp ⟨Kind.RunAction, Step.Queued, none, some "a1", ∅, false⟩
            ⟨["a1", "a2"], false, ""⟩ textFactory).factoryCalls = [e]
            ∧ textFactory.answer e = some (some op, err))
      ∧ (((NextOp ⟨Kind.RunAction, Step.Queued, none, some "a1", ∅, false⟩
            ⟨["a1", "a2"], false, ""⟩ textFactory).factoryCalls = []
          ∧ (NextOp ⟨Kind.RunAction, Step.Queued, none, some "a1", ∅, false⟩
            ⟨["a1", "a2"], false, ""⟩ textFactory).completion
            = Completion.returned none (some Error.ErrNoOperation))
        ∨ (∃ id, (NextOp ⟨Kind.RunAction, Step.Queued, none, some "a1", ∅, false⟩
            ⟨["a1", "a2"], false, ""⟩ textFactory).factoryCalls = [Event.NewAction id]
          ∧ (NextOp ⟨Kind.RunAction, Step.Queued, none, some "a1", ∅, false⟩
            ⟨["a1", "a2"], false, ""⟩ textFactory).completion
            = Completion.ofPair (textFactory.NewAction id))
        ∨ (∃ id, (NextOp ⟨Kind.RunAction, Step.Queued, none, some "a1", ∅, false⟩
            ⟨["a1", "a2"], false, ""⟩ textFactory).factoryCalls = [Event.NewFailAction id]
          ∧ (NextOp ⟨Kind.RunAction, Step.Queued, none, some "a1", ∅, false⟩
            ⟨["a1", "a2"], false, ""⟩ textFactory).completion
            = Completion.ofPair (textFactory.NewFailAction id))
        ∨ (∃ hook, (NextOp ⟨Kind.RunAction, Step.Queued, none, some "a1", ∅, false⟩
            ⟨["a1", "a2"], false, ""⟩ textFactory).factoryCalls = [Event.NewSkipHook hook]
          ∧ (NextOp ⟨Kind.RunAction, Step.Queued, none, some "a1", ∅, false⟩
            ⟨["a1", "a2"], false, ""⟩ textFactory).completion
            = Completion.ofPair (textFactory.NewSkipHook hook))) :=
  ⟨(NextOp_single_call ⟨Kind.RunAction, Step.Queued, none, some "a1", ∅, false⟩
      ⟨["a1", "a2"], false, ""⟩ textFactory).1,
   (NextOp_single_call ⟨Kind.RunAction, Step.Queued, none, some "a1", ∅, false⟩
      ⟨["a1", "a2"], false, ""⟩ textFactory).2.1,
   (NextOp_single_call ⟨Kind.RunAction, Step.Queued, none, some "a1", ∅, false⟩
      ⟨["a1", "a2"], false, ""⟩ textFactory).2.2.2 (by decide)⟩

/-- The calls a run makes - which factory constructor, with which argument, and
the log lines - do not depend on the factory at all, whatever the type of its
operations; and the pair it returns depends on the factory only through the
answer to the factory call made, so two factories that answer that call alike
give the same run. -/
theorem NextOp_factory_independence {Op Op2 : Type} (localState : LocalState)
    (remoteState : Snapshot) (opFactory opFactory2 : Factory Op)
    (otherFactory : Factory Op2) :
    (NextOp localState remoteState opFactory).trace
          = (NextOp localState remoteState otherFactory).trace
      ∧ ((∀ e ∈ (NextOp localState remoteState opFactory).factoryCalls,
            opFactory.answer e = opFactory2.answer e) →
          NextOp localState remoteState opFactory
            = NextOp localState remoteState opFactory2) := by
  refine ⟨?_, ?_⟩
  · by_cases hb : remoteState.ActionsBlocked = true ∨ localState.OutdatedRemoteCharm = true
    · rw [NextOp_of_blocked _ _ opFactory hb, NextOp_of_blocked _ _ otherFactory hb]
      cases hK : localState.Kind <;> cases hH : localState.Hook <;>
        cases hI : localState.ActionId <;> simp
    · have hB : remoteState.ActionsBlocked = false := by
        cases h : remoteState.ActionsBlocked <;> simp_all
      have hO : localState.OutdatedRemoteCharm = false := by
        cases h : localState.OutdatedRemoteCharm <;> simp_all
      cases hC : nextCandidate remoteState.ActionsPending localState.CompletedActions with
      | none =>
        rw [NextOp_of_no_candidate _ _ opFactory hB hO hC,
          NextOp_of_no_candidate _ _ otherFactory hB hO hC]
        cases hK : localState.Kind <;> cases hH : localState.Hook <;>
          cases hI : localState.ActionId <;> simp
        split <;> rfl
      | some c =>
        rw [NextOp_of_candidate _ _ opFactory c hB hO hC,
          NextOp_of_candidate _ _ otherFactory c hB hO hC]
        cases hK : localState.Kind <;> cases hH : localState.Hook <;>
          cases hI : localState.ActionId <;> simp <;> split <;> rfl
  · by_cases hb : remoteState.ActionsBlocked = true ∨ localState.OutdatedRemoteCharm = true
    · rw [NextOp_of_blocked _ _ opFactory hb, NextOp_of_blocked _ _ opFactory2 hb]
      cases hK : localState.Kind <;> cases hH : localState.Hook <;>
        cases hI : localState.ActionId <;>
        simp [Run.factoryCalls, Event.isFactoryCall, Factory.answer] <;>
        intro h <;> rw [h]
    · have hB : remoteState.ActionsBlocked = false := by
        cases h : remoteState.ActionsBlocked <;> simp_all
      have hO : localState.OutdatedRemoteCharm = false := by
        cases h : localState.OutdatedRemoteCharm <;> simp_all
      cases hC : nextCandidate remoteState.ActionsPending localState.CompletedActions with
      | none =>
        rw [NextOp_of_no_candidate _ _ opFactory hB hO hC,
          NextOp_of_no_candidate _ _ opFactory2 hB hO hC]
        cases hK : localState.Kind <;> cases hH : localState.Hook <;>
          cases hI : localState.ActionId <;>
          simp [Run.factoryCalls, Event.isFactoryCall, Factory.answer] <;>
          first
            | (intro h; rw [h])
            | (split <;> simp [Run.factoryCalls, Event.isFactoryCall, Factory.answer] <;>
                intro h <;> rw [h])
      | some c =>
        rw [NextOp_of_candidate _ _ opFactory c hB hO hC,
          NextOp_of_candidate _ _ opFactory2 c hB hO hC]
        cases hK : localState.Kind <;> cases hH : localState.Hook <;>
          cases hI : localState.ActionId <;>
          simp [Run.factoryCalls, Event.isFactoryCall, Factory.answer] <;>
          first
            | (intro h; rw [h])
            | (split <;> simp [Run.factoryCalls, Event.isFactoryCall, Factory.answer] <;>
                intro h <;> rw [h])

end Uniter

namespace Uniter.upgradecharmprofile

/-! ## The LXD-profile upgrade resolver -/

/-- C12. LXD-profile gate: the run returns `(nil, ErrDoNotProceed)` if and only if
`UpgradeStatusTerminal` is false on the snapshot's profile status, and returns
`(nil, ErrNoOperation)` if and only if the status is terminal. -/
theorem NextOp_gate {Op : Type} (lxdprofile : LxdProfile) (localState : LocalState)
    (remoteState : Snapshot) (opFactory : Factory Op) :
    ((NextOp lxdprofile localState remoteState opFactory).completion
          = Completion.returned none (some Error.ErrDoNotProceed)
        ↔ lxdprofile.UpgradeStatusTerminal remoteState.UpgradeCharmProfileStatus = false)
      ∧ ((NextOp lxdprofile localState remoteState opFactory).completion
          = Completion.returned none (some Error.ErrNoOperation)
        ↔ lxdprofile.UpgradeStatusTerminal remoteState.UpgradeCharmProfileStatus = true) := by
  unfold NextOp
  cases hT : lxdprofile.UpgradeStatusTerminal remoteState.UpgradeCharmProfileStatus
  · simp
  · cases hE : lxdprofile.UpgradeStatusErrorred remoteState.UpgradeCharmProfileStatus <;> simp

/-- C13. The LXD-profile resolver only gates: the operation it returns is nil, it
makes no factory call, and the pair it returns is fixed by the profile status
alone - `(nil, ErrNoOperation)` for a terminal status and `(nil, ErrDoNotProceed)`
otherwise, for every local state and every factory. So two inputs with the same
status have the same run, and a terminal error status gives the same pair as a
terminal success status. -/
theorem NextOp_only_gates {Op Op2 : Type} (lxdprofile : LxdProfile)
    (localState localState2 : LocalState) (remoteState remoteState2 : Snapshot)
    (opFactory opFactory2 : Factory Op) (otherFactory : Factory Op2) :
    (NextOp lxdprofile localState remoteState opFactory).completion
        = Completion.returned none
            (some (if lxdprofile.UpgradeStatusTerminal remoteState.UpgradeCharmProfileStatus
              then Error.ErrNoOperation else Error.ErrDoNotProceed))
      ∧ (NextOp lxdprofile localState remoteState otherFactory).completion
        = Completion.returned none
            (some (if lxdprofile.UpgradeStatusTerminal remoteState.UpgradeCharmProfileStatus
              then Error.ErrNoOperation else Error.ErrDoNotProceed))
      ∧ (NextOp lxdprofile localState remoteState opFactory).factoryCalls = []
      ∧ (remoteState.UpgradeCharmProfileStatus = remoteState2.UpgradeCharmProfileStatus →
          NextOp lxdprofile localState remoteState opFactory
            = NextOp lxdprofile localState2 remoteState2 opFactory2)
      ∧ (lxdprofile.UpgradeStatusTerminal remoteState.UpgradeCharmProfileStatus = true →
          lxdprofile.UpgradeStatusTerminal remoteState2.UpgradeCharmProfileStatus = true →
          (NextOp lxdprofile localState remoteState opFactory).completion
            = (NextOp lxdprofile localState2 remoteState2 opFactory2).completion) := by
  unfold NextOp
  refine ⟨?_, ?_, ?_, ?_, ?_⟩
  · cases hT : lxdprofile.UpgradeStatusTerminal remoteState.UpgradeCharmProfileStatus <;>
      cases hE : lxdprofile.UpgradeStatusErrorred remoteState.UpgradeCharmProfileStatus <;>
      simp
  · cases hT : lxdprofile.UpgradeStatusTerminal remoteState.UpgradeCharmProfileStatus <;>
      cases hE : lxdprofile.UpgradeStatusErrorred remoteState.UpgradeCharmProfileStatus <;>
      simp
  · cases hT : lxdprofile.UpgradeStatusTerminal remoteState.UpgradeCharmProfileStatus <;>
      cases hE : lxdprofile.UpgradeStatusErrorred remoteState.UpgradeCharmProfileStatus <;>
      simp [Run.factoryCalls, Event.isFactoryCall]
  · intro hS
    rw [hS]
  · intro hT hT2
    rw [hT, hT2]
    cases hE : lxdprofile.UpgradeStatusErrorred remoteState.UpgradeCharmProfileStatus <;>
      cases hE2 : lxdprofile.UpgradeStatusErrorred remoteState2.UpgradeCharmProfileStatus <;>
      simp

end Uniter.upgradecharmprofile

namespace Upgrades

/-! ## Major-version upgrades -/

/-- C14, as stated, fails: `UpgradeAllowed` clears the tag of `from` before it
compares, so from 2.8-rc9 to 3.0.0 the upgrade is allowed although 2.8-rc9 is
below 2.8.9 in the `version.Number` ordering. -/
theorem UpgradeAllowed_min_version_counterexample :
    (⟨2, 8, "rc", 9, 0⟩ : Number).Major < (⟨3, 0, "", 0, 0⟩ : Number).Major
      ∧ UpgradeAllowed ⟨2, 8, "rc", 9, 0⟩ ⟨3, 0, "", 0, 0⟩ = (true, ⟨2, 8, "", 9, 0⟩, none)
      ∧ MinMajorUpgradeVersion 3 = some ⟨2, 8, "", 9, 0⟩
      ∧ ¬ ((⟨2, 8, "rc", 9, 0⟩ : Number).Compare ⟨2, 8, "", 9, 0⟩ ≥ 0) := by
  decide

/-- C14, amended. Minimum version for a major upgrade: when `from.Major` is below
`to.Major` and `UpgradeAllowed` answers true, the target major has a minimum
version in `MinMajorUpgradeVersion` and `from` with its tag cleared is at least
that minimum (`Compare` gives 0 or more); so is `from` itself when its tag is
empty. For target major 3 the minimum is 2.8.9. -/
theorem UpgradeAllowed_min_version (from_ to_ : Number)
    (hlt : from_.Major < to_.Major)
    (hallowed : (UpgradeAllowed from_ to_).1 = true) :
    ∃ minVer, MinMajorUpgradeVersion to_.Major = some minVer
      ∧ (UpgradeAllowed from_ to_).2.1 = minVer
      ∧ ({ from_ with Tag := "" } : Number).Compare minVer ≥ 0
      ∧ (from_.Tag = "" → from_.Compare minVer ≥ 0)
      ∧ (to_.Major = 3 → minVer = ⟨2, 8, "", 9, 0⟩) := by
  have h1 : ¬ from_.Major = to_.Major := by omega
  have h2 : ¬ from_.Major > to_.Major := by omega
  unfold UpgradeAllowed at hallowed ⊢
  rw [if_neg h1, if_neg h2] at hallowed ⊢
  cases hM : MinMajorUpgradeVersion to_.Major with
  | none => rw [hM] at hallowed; simp at hallowed
  | some minVer =>
    rw [hM] at hallowed
    have hcmp : ({ from_ with Tag := "" } : Number).Compare minVer ≥ 0 := by
      simpa using hallowed
    refine ⟨minVer, rfl, rfl, hcmp, ?_, ?_⟩
    · intro hTag
      have hEq : ({ from_ with Tag := "" } : Number) = from_ := by
        cases from_
        simp_all
      rw [hEq] at hcmp
      exact hcmp
    · intro h3
      unfold MinMajorUpgradeVersion at hM
      rw [if_pos h3] at hM
      exact (Option.some.inj hM).symm

/-- From 2.9.0 to 3.0.0. -/
theorem UpgradeAllowed_min_version_witness :
    ∃ minVer, MinMajorUpgradeVersion (⟨3, 0, "", 0, 0⟩ : Number).Major = some minVer
      ∧ (UpgradeAllowed ⟨2, 9, "", 0, 0⟩ ⟨3, 0, "", 0, 0⟩).2.1 = minVer
      ∧ ({ (⟨2, 9, "", 0, 0⟩ : Number) with Tag := "" } : Number).Compare minVer ≥ 0
      ∧ ((⟨2, 9, "", 0, 0⟩ : Number).Tag = "" → (⟨2, 9, "", 0, 0⟩ : Number).Compare minVer ≥ 0)
      ∧ ((⟨3, 0, "", 0, 0⟩ : Number).Major = 3 → minVer = ⟨2, 8, "", 9, 0⟩) :=
  UpgradeAllowed_min_version ⟨2, 9, "", 0, 0⟩ ⟨3, 0, "", 0, 0⟩ (by decide) (by decide)

/-- C15. Same-major and downgrade cases: when `from.Major` is at least `to.Major`,
`UpgradeAllowed` returns `(from.Major == to.Major, zero version, nil)`: every
change within one major version is allowed, whatever the other fields and the
table of minimum versions, and every major downgrade is refused without error. -/
theorem UpgradeAllowed_same_or_lower_major (from_ to_ : Number)
    (h : from_.Major ≥ to_.Major) :
    UpgradeAllowed from_ to_
      = (decide (from_.Major = to_.Major), ⟨0, 0, "", 0, 0⟩, none) := by
  unfold UpgradeAllowed
  by_cases hEq : from_.Major = to_.Major
  · simp [hEq]
  · have hgt : from_.Major > to_.Major := by omega
    simp [hEq, hgt]

/-- From 2.9-beta1 to 2.0.0 (allowed), and the value at a downgrade from 3.0.0
to 2.9.0 (refused). -/
theorem UpgradeAllowed_same_or_lower_major_witness :
    UpgradeAllowed ⟨2, 9, "beta", 1, 0⟩ ⟨2, 0, "", 0, 0⟩ = (true, ⟨0, 0, "", 0, 0⟩, none)
      ∧ UpgradeAllowed ⟨3, 0, "", 0, 0⟩ ⟨2, 9, "", 0, 0⟩ = (false, ⟨0, 0, "", 0, 0⟩, none) :=
  ⟨UpgradeAllowed_same_or_lower_major ⟨2, 9, "beta", 1, 0⟩ ⟨2, 0, "", 0, 0⟩ (by decide),
   UpgradeAllowed_same_or_lower_major ⟨3, 0, "", 0, 0⟩ ⟨2, 9, "", 0, 0⟩ (by decide)⟩

end Upgrades

namespace Instances

/-! ## Instance specs -/

theorem matchArch_iff (image : Image) (arches : List String) :
    image.matchArch arches = true ↔ image.Arch ∈ arches := by
  induction arches with
  | nil => simp [Image.matchArch]
  | cons a rest ih =>
    by_cases h : a = image.Arch
    · simp [Image.matchArch, h]
    · have h2 : ¬ image.Arch = a := fun e => h e.symm
      simp [Image.matchArch, h, h2, ih]

theorem match_exact_iff (image : Image) (itype : InstanceType) :
    image.match_ itype = imageMatch.exactMatch ↔
      image.Arch ∈ itype.Arches
        ∧ (itype.VirtType = none ∨ itype.VirtType = some image.VirtType) := by
  unfold Image.match_
  by_cases hA : image.matchArch itype.Arches = true
  · have hmem := (matchArch_iff image itype.Arches).mp hA
    cases hV : itype.VirtType with
    | none => simp [hA, hmem]
    | some v =>
      by_cases hE : image.VirtType = v
      · simp [hA, hmem, hE]
      · have hE2 : ¬ v = image.VirtType := fun e => hE e.symm
        by_cases hEmpty : image.VirtType = ""
        · have h1 : ¬ "" = v := by rw [← hEmpty]; exact hE
          have h2 : ¬ v = "" := fun e => h1 e.symm
          simp [hA, hmem, hEmpty, h1, h2]
        · simp [hA, hmem, hE, hE2, hEmpty]
  · have hmem : image.Arch ∉ itype.Arches := fun h => hA ((matchArch_iff image itype.Arches).mpr h)
    simp [hA, hmem]

theorem match_partial_iff (image : Image) (itype : InstanceType) :
    image.match_ itype = imageMatch.partialMatch ↔
      image.Arch ∈ itype.Arches ∧ image.VirtType = ""
        ∧ ∃ v, itype.VirtType = some v ∧ v ≠ image.VirtType := by
  unfold Image.match_
  by_cases hA : image.matchArch itype.Arches = true
  · have hmem := (matchArch_iff image itype.Arches).mp hA
    cases hV : itype.VirtType with
    | none => simp [hA, hmem]
    | some v =>
      by_cases hE : image.VirtType = v
      · simp [hA, hmem, hE]
      · have hE2 : ¬ v = image.VirtType := fun e => hE e.symm
        by_cases hEmpty : image.VirtType = ""
        · have h1 : ¬ "" = v := by rw [← hEmpty]; exact hE
          have h2 : ¬ v = "" := fun e => h1 e.symm
          simp [hA, hmem, hEmpty, h1, h2]
        · simp [hA, hmem, hE, hE2, hEmpty]
  · have hmem : image.Arch ∉ itype.Arches := fun h => hA ((matchArch_iff image itype.Arches).mpr h)
    simp [hA, hmem]

theorem Less_iff_key_lt (Info : String → ArchInfo) (a b : InstanceSpec) :
    byArch.Less Info a b = true ↔ byArch.key Info a < byArch.key Info b := by
  unfold byArch.Less byArch.key
  simp only [Prod.Lex.lt_iff, OrderDual.toDual_lt_toDual, ← String.lt_iff_toList_lt]
  rcases lt_trichotomy (Info a.Image.Arch).WordSize (Info b.Image.Arch).WordSize with h | h | h
  · have h2 : ¬ (Info a.Image.Arch).WordSize > (Info b.Image.Arch).WordSize := by omega
    have h3 : ¬ (Info a.Image.Arch).WordSize = (Info b.Image.Arch).WordSize := by omega
    simp [h, h2, h3]
  · rcases lt_trichotomy a.Image.Arch b.Image.Arch with g | g | g
    · simp [h, g]
    · simp [h, g]
    · have g2 : ¬ a.Image.Arch < b.Image.Arch := not_lt_of_gt g
      have g3 : ¬ a.Image.Arch = b.Image.Arch := ne_of_gt g
      simp [h, g, g2, g3]
  · simp [h]

/-- The head of the sorted list is one of the specs, and no spec is `Less` than it. -/
theorem sortByArch_head (Info : String → ArchInfo) (specs : List InstanceSpec)
    (spec : InstanceSpec) (h : (sortByArch Info specs)[0]? = some spec) :
    spec ∈ specs ∧ ∀ s ∈ specs, byArch.Less Info s spec = false := by
  have hr : ∀ a b : InstanceSpec,
      byArch.Less Info b a = false ↔ byArch.key Info a ≤ byArch.key Info b := by
    intro a b
    rw [← not_lt, ← Less_iff_key_lt]
    simp
  haveI : IsTotal InstanceSpec (fun a b => byArch.Less Info b a = false) :=
    ⟨fun a b => by
      show byArch.Less Info b a = false ∨ byArch.Less Info a b = false
      rw [hr, hr]
      exact le_total _ _⟩
  haveI : IsTrans InstanceSpec (fun a b => byArch.Less Info b a = false) :=
    ⟨fun a b c h1 h2 => by
      have h1k := (hr a b).mp h1
      have h2k := (hr b c).mp h2
      exact (hr a c).mpr (le_trans h1k h2k)⟩
  have hs := List.sorted_insertionSort (fun a b => byArch.Less Info b a = false) specs
  have hp := List.perm_insertionSort (fun a b => byArch.Less Info b a = false) specs
  unfold sortByArch at h
  cases hl : List.insertionSort (fun a b => byArch.Less Info b a = false) specs with
  | nil => rw [hl] at h; simp at h
  | cons x xs =>
    rw [hl] at h hs hp
    have hx : x = spec := by simpa using h
    subst hx
    refine ⟨hp.subset (List.mem_cons_self _ _), ?_⟩
    intro s hsmem
    have hs2 : s ∈ x :: xs := hp.symm.subset hsmem
    rcases List.mem_cons.mp hs2 with he | hin
    · subst he
      exact (hr s s).mpr (le_refl _)
    · exact List.rel_of_sorted_cons hs s hin

theorem numberedSpecs_length (start : Nat) (ps : List (InstanceType × Image)) :
    (numberedSpecs start ps).length = ps.length := by
  induction ps generalizing start with
  | nil => rfl
  | cons p rest ih => simp [numberedSpecs, ih]

theorem numberedSpecs_pairs (start : Nat) (ps : List (InstanceType × Image)) :
    (numberedSpecs start ps).map (fun s => (s.InstanceType, s.Image)) = ps := by
  induction ps generalizing start with
  | nil => rfl
  | cons p rest ih => simp [numberedSpecs, ih]

theorem numberedSpecs_order (start : Nat) (ps : List (InstanceType × Image)) (i : Nat)
    (s : InstanceSpec) (h : (numberedSpecs start ps)[i]? = some s) : s.order = start + i := by
  induction ps generalizing start i with
  | nil => simp [numberedSpecs] at h
  | cons p rest ih =>
    cases i with
    | zero =>
      simp [numberedSpecs] at h
      rw [← h]
      rfl
    | succ k =>
      simp [numberedSpecs] at h
      have := ih (start + 1) k h
      omega

theorem numberedSpecs_mem (start : Nat) (ps : List (InstanceType × Image))
    (s : InstanceSpec) (h : s ∈ numberedSpecs start ps) : (s.InstanceType, s.Image) ∈ ps := by
  rw [← numberedSpecs_pairs start ps]
  exact List.mem_map_of_mem _ h

theorem foldl_addSpec_eq (ps : List (InstanceType × Image))
    (acc : List InstanceSpec × List InstanceSpec) :
    ps.foldl (fun specs p => addSpec specs p.1 p.2) acc
      = (acc.1 ++ numberedSpecs acc.1.length (ps.filter (matchesAs imageMatch.exactMatch)),
         acc.2 ++ numberedSpecs acc.2.length (ps.filter (matchesAs imageMatch.partialMatch))) := by
  induction ps generalizing acc with
  | nil => simp [numberedSpecs]
  | cons p rest ih =>
    rw [List.foldl_cons, ih]
    cases hm : p.2.match_ p.1 <;>
      simp [addSpec, hm, matchesAs, numberedSpecs, List.filter_cons]

theorem foldl_product_eq (matchingTypes : List InstanceType) (possibleImages : List Image)
    (acc : List InstanceSpec × List InstanceSpec) :
    matchingTypes.foldl
        (fun specs itype =>
          possibleImages.foldl (fun specs image => addSpec specs itype image) specs) acc
      = (matchingTypes ×ˢ possibleImages).foldl (fun specs p => addSpec specs p.1 p.2) acc := by
  induction matchingTypes generalizing acc with
  | nil => simp
  | cons t rest ih =>
    rw [List.foldl_cons, ih, List.product_cons, List.foldl_append, List.foldl_map]

/-- The two lists the loops build, in closed form: the matching pairs in the
order the loops visit them, numbered from zero. -/
theorem collectSpecs_eq (matchingTypes : List InstanceType) (possibleImages : List Image) :
    collectSpecs matchingTypes possibleImages
      = (numberedSpecs 0
            ((matchingTypes ×ˢ possibleImages).filter (matchesAs imageMatch.exactMatch)),
         numberedSpecs 0
            ((matchingTypes ×ˢ possibleImages).filter (matchesAs imageMatch.partialMatch))) := by
  unfold collectSpecs
  rw [foldl_product_eq, foldl_addSpec_eq]
  simp

/-- What a successful call went through: `MatchingInstanceTypes` gave no
error, and the spec returned is the head of the sorted selected list. -/
theorem FindInstanceSpec_found {Value E : Type} (Info : String → ArchInfo)
    (MatchingInstanceTypes : List InstanceType → String → Value → List InstanceType × Option E)
    (possibleImages : List Image) (ic : InstanceConstraint Value)
    (allInstanceTypes : List InstanceType) (spec : InstanceSpec)
    (h : FindInstanceSpec Info MatchingInstanceTypes possibleImages (some ic) allInstanceTypes
          = FindResult.found spec) :
    (sortByArch Info (selectSpecs (collectSpecs
        (MatchingInstanceTypes allInstanceTypes ic.Region ic.Constraints).1
        possibleImages)))[0]? = some spec := by
  unfold FindInstanceSpec at h
  simp only at h
  rcases hM : MatchingInstanceTypes allInstanceTypes ic.Region ic.Constraints with ⟨mt, err⟩
  rw [hM] at h
  simp only at h
  split at h
  · cases h
  · cases err with
    | some e => cases h
    | none =>
      simp only at h
      split at h
      · cases h
      · split at h
        · split at h
          · rename_i spec2 hhead
            cases h
            exact hhead
          · cases h
        · cases h

/-- Membership in the selected list: the spec pairs a matching instance type
with a possible image; the pair is an exact match, or it is a partial match
and the list of exact matches is empty. -/
theorem mem_selectSpecs (matchingTypes : List InstanceType) (possibleImages : List Image)
    (s : InstanceSpec) (h : s ∈ selectSpecs (collectSpecs matchingTypes possibleImages)) :
    s.InstanceType ∈ matchingTypes ∧ s.Image ∈ possibleImages
      ∧ (s.Image.match_ s.InstanceType = imageMatch.exactMatch
        ∨ (s.Image.match_ s.InstanceType = imageMatch.partialMatch
          ∧ (matchingTypes ×ˢ possibleImages).filter (matchesAs imageMatch.exactMatch) = [])) := by
  rw [collectSpecs_eq] at h
  unfold selectSpecs at h
  simp only [numberedSpecs_length] at h
  split at h
  · rename_i hlen
    have hp := numberedSpecs_mem _ _ _ h
    rw [List.mem_filter] at hp
    obtain ⟨hprod, hm⟩ := hp
    have hm2 : s.Image.match_ s.InstanceType = imageMatch.partialMatch := by
      simpa [matchesAs] using hm
    have hmem := List.mem_product.mp hprod
    exact ⟨hmem.1, hmem.2, Or.inr ⟨hm2, List.length_eq_zero.mp hlen⟩⟩
  · have hp := numberedSpecs_mem _ _ _ h
    rw [List.mem_filter] at hp
    obtain ⟨hprod, hm⟩ := hp
    have hm2 : s.Image.match_ s.InstanceType = imageMatch.exactMatch := by
      simpa [matchesAs] using hm
    have hmem := List.mem_product.mp hprod
    exact ⟨hmem.1, hmem.2, Or.inl hm2⟩

/-- C16. Exact matches take precedence: when `FindInstanceSpec` succeeds and some
matching instance type and possible image are an exact match, the spec returned
is an exact match; so a partial match is returned only when no pair is an exact
match. A partial match is an image with an empty `VirtType` against an instance
type whose `VirtType` is set and differs from it. -/
theorem FindInstanceSpec_exact_precedence {Value E : Type} (Info : String → ArchInfo)
    (MatchingInstanceTypes : List InstanceType → String → Value → List InstanceType × Option E)
    (possibleImages : List Image) (ic : InstanceConstraint Value)
    (allInstanceTypes : List InstanceType) (spec : InstanceSpec)
    (h : FindInstanceSpec Info MatchingInstanceTypes possibleImages (some ic) allInstanceTypes
          = FindResult.found spec) :
    ((∃ itype ∈ (MatchingInstanceTypes allInstanceTypes ic.Region ic.Constraints).1,
        ∃ image ∈ possibleImages, image.match_ itype = imageMatch.exactMatch) →
        spec.Image.match_ spec.InstanceType = imageMatch.exactMatch)
      ∧ (spec.Image.match_ spec.InstanceType = imageMatch.partialMatch →
        ∀ itype ∈ (MatchingInstanceTypes allInstanceTypes ic.Region ic.Constraints).1,
          ∀ image ∈ possibleImages, image.match_ itype ≠ imageMatch.exactMatch)
      ∧ (spec.Image.match_ spec.InstanceType = imageMatch.partialMatch →
        spec.Image.VirtType = ""
          ∧ ∃ v, spec.InstanceType.VirtType = some v ∧ v ≠ spec.Image.VirtType) := by
  have hhead := FindInstanceSpec_found Info MatchingInstanceTypes possibleImages ic
    allInstanceTypes spec h
  have hmem := (sortByArch_head Info _ spec hhead).1
  obtain ⟨_, _, hcase⟩ := mem_selectSpecs _ _ spec hmem
  have key : spec.Image.match_ spec.InstanceType = imageMatch.partialMatch →
      ∀ itype ∈ (MatchingInstanceTypes allInstanceTypes ic.Region ic.Constraints).1,
        ∀ image ∈ possibleImages, image.match_ itype ≠ imageMatch.exactMatch := by
    intro hpart itype hit image him hex
    rcases hcase with hE | ⟨_, hnil⟩
    · rw [hE] at hpart
      cases hpart
    · have : (itype, image) ∈ (MatchingInstanceTypes allInstanceTypes ic.Region
          ic.Constraints).1 ×ˢ possibleImages := List.mem_product.mpr ⟨hit, him⟩
      have hin : (itype, image) ∈ ((MatchingInstanceTypes allInstanceTypes ic.Region
          ic.Constraints).1 ×ˢ possibleImages).filter (matchesAs imageMatch.exactMatch) := by
        rw [List.mem_filter]
        exact ⟨this, by simp [matchesAs, hex]⟩
      rw [hnil] at hin
      cases hin
  refine ⟨?_, key, ?_⟩
  · rintro ⟨itype, hit, image, him, hex⟩
    rcases hcase with hE | ⟨hP, _⟩
    · exact hE
    · exact absurd hex (key hP itype hit image him)
  · intro hpart
    exact ((match_partial_iff _ _).mp hpart).2

/-- An exact match (amd64, pv) and a partial match (amd64, no virt type) for one
instance type: the exact match is returned. -/
theorem FindInstanceSpec_exact_precedence_witness :
    ((∃ itype ∈ (exampleMatching [⟨"m1", ["amd64", "arm64", "i386"], some "pv"⟩] "r" ()).1,
        ∃ image ∈ ([⟨"img-4", "amd64", ""⟩, ⟨"img-3", "amd64", "pv"⟩] : List Image),
          image.match_ itype = imageMatch.exactMatch) →
        (⟨"img-3", "amd64", "pv"⟩ : Image).match_ ⟨"m1", ["amd64", "arm64", "i386"], some "pv"⟩
          = imageMatch.exactMatch)
      ∧ ((⟨"img-3", "amd64", "pv"⟩ : Image).match_ ⟨"m1", ["amd64", "arm64", "i386"], some "pv"⟩
          = imageMatch.partialMatch →
        ∀ itype ∈ (exampleMatching [⟨"m1", ["amd64", "arm64", "i386"], some "pv"⟩] "r" ()).1,
          ∀ image ∈ ([⟨"img-4", "amd64", ""⟩, ⟨"img-3", "amd64", "pv"⟩] : List Image),
            image.match_ itype ≠ imageMatch.exactMatch)
      ∧ ((⟨"img-3", "amd64", "pv"⟩ : Image).match_ ⟨"m1", ["amd64", "arm64", "i386"], some "pv"⟩
          = imageMatch.partialMatch →
        (⟨"img-3", "amd64", "pv"⟩ : Image).VirtType = ""
          ∧ ∃ v, (⟨"m1", ["amd64", "arm64", "i386"], some "pv"⟩ : InstanceType).VirtType = some v
            ∧ v ≠ (⟨"img-3", "amd64", "pv"⟩ : Image).VirtType) :=
  FindInstanceSpec_exact_precedence exampleInfo exampleMatching
    [⟨"img-4", "amd64", ""⟩, ⟨"img-3", "amd64", "pv"⟩] ⟨"r", "focal", [], (), []⟩
    [⟨"m1", ["amd64", "arm64", "i386"], some "pv"⟩]
    ⟨⟨"m1", ["amd64", "arm64", "i386"], some "pv"⟩, ⟨"img-3", "amd64", "pv"⟩, 0⟩ (by decide)

/-- C17. Architecture preference: the spec returned is one of the selected list
(the exact matches, or the partial matches when there is no exact match); its
image architecture has a word size at least that of every candidate; among the
candidates of that word size its architecture name is the least; and among the
candidates with that word size and name its `order` is the least. The `order`
of a candidate is its position in the selected list, and the selected list
holds the matching pairs in the order the loops visit them: instance types in
matching order outermost, images in the order of `possibleImages` innermost. -/
theorem FindInstanceSpec_arch_preference {Value E : Type} (Info : String → ArchInfo)
    (MatchingInstanceTypes : List InstanceType → String → Value → List InstanceType × Option E)
    (possibleImages : List Image) (ic : InstanceConstraint Value)
    (allInstanceTypes : List InstanceType) (spec : InstanceSpec)
    (h : FindInstanceSpec Info MatchingInstanceTypes possibleImages (some ic) allInstanceTypes
          = FindResult.found spec) :
    spec ∈ selectSpecs (collectSpecs
        (MatchingInstanceTypes allInstanceTypes ic.Region ic.Constraints).1 possibleImages)
      ∧ (∀ s ∈ selectSpecs (collectSpecs
            (MatchingInstanceTypes allInstanceTypes ic.Region ic.Constraints).1 possibleImages),
          (Info s.Image.Arch).WordSize ≤ (Info spec.Image.Arch).WordSize
            ∧ ((Info s.Image.Arch).WordSize = (Info spec.Image.Arch).WordSize →
                spec.Image.Arch ≤ s.Image.Arch)
            ∧ ((Info s.Image.Arch).WordSize = (Info spec.Image.Arch).WordSize →
                s.Image.Arch = spec.Image.Arch → spec.order ≤ s.order))
      ∧ (∀ (i : Nat) (s : InstanceSpec),
          (selectSpecs (collectSpecs
            (MatchingInstanceTypes allInstanceTypes ic.Region ic.Constraints).1
            possibleImages))[i]? = some s → s.order = i)
      ∧ (selectSpecs (collectSpecs
            (MatchingInstanceTypes allInstanceTypes ic.Region ic.Constraints).1
            possibleImages)).map (fun s => (s.InstanceType, s.Image))
          = if (((MatchingInstanceTypes allInstanceTypes ic.Region ic.Constraints).1
                  ×ˢ possibleImages).filter (matchesAs imageMatch.exactMatch)).length = 0
            then ((MatchingInstanceTypes allInstanceTypes ic.Region ic.Constraints).1
                  ×ˢ possibleImages).filter (matchesAs imageMatch.partialMatch)
            else ((MatchingInstanceTypes allInstanceTypes ic.Region ic.Constraints).1
                  ×ˢ possibleImages).filter (matchesAs imageMatch.exactMatch) := by
  have hhead := FindInstanceSpec_found Info MatchingInstanceTypes possibleImages ic
    allInstanceTypes spec h
  obtain ⟨hmem, hmin⟩ := sortByArch_head Info _ spec hhead
  refine ⟨hmem, ?_, ?_, ?_⟩
  · intro s hs
    have hle : byArch.key Info spec ≤ byArch.key Info s := by
      rw [← not_lt, ← Less_iff_key_lt]
      simp [hmin s hs]
    unfold byArch.key at hle
    simp only [Prod.Lex.le_iff, OrderDual.toDual_lt_toDual, OrderDual.toDual_inj] at hle
    rcases hle with hlt | ⟨heq, hrest⟩
    · refine ⟨le_of_lt hlt, ?_, ?_⟩
      · intro he; omega
      · intro he; omega
    · refine ⟨le_of_eq heq.symm, ?_, ?_⟩
      · intro _
        rcases hrest with hlt | ⟨he, _⟩
        · exact le_of_lt hlt
        · exact le_of_eq he
      · intro _ hname
        rcases hrest with hlt | ⟨_, hord⟩
        · rw [hname] at hlt
          exact absurd hlt (lt_irrefl _)
        · exact hord
  · intro i s hget
    rw [collectSpecs_eq] at hget
    unfold selectSpecs at hget
    split at hget
    · have := numberedSpecs_order _ _ _ _ hget
      omega
    · have := numberedSpecs_order _ _ _ _ hget
      omega
  · rw [collectSpecs_eq]
    unfold selectSpecs
    simp only [numberedSpecs_length]
    split <;> exact numberedSpecs_pairs _ _

/-- Two instance types and four images, all exact matches: the 64-bit images
come before the 32-bit one, amd64 before arm64, and of the two amd64 candidates
the one generated first (for m1) is returned. -/
theorem FindInstanceSpec_arch_preference_witness :
    (FindInstanceSpec exampleInfo exampleMatching
        [⟨"img-1", "i386", ""⟩, ⟨"img-2", "arm64", ""⟩, ⟨"img-3", "amd64", ""⟩]
        (some ⟨"r", "focal", [], (), []⟩)
        [⟨"m1", ["amd64", "arm64", "i386"], none⟩, ⟨"m2", ["amd64"], none⟩]
        = FindResult.found ⟨⟨"m1", ["amd64", "arm64", "i386"], none⟩, ⟨"img-3", "amd64", ""⟩, 2⟩)
      ∧ ∀ (i : Nat) (s : InstanceSpec),
          (selectSpecs (collectSpecs
            (exampleMatching [⟨"m1", ["amd64", "arm64", "i386"], none⟩, ⟨"m2", ["amd64"], none⟩]
              "r" ()).1
            [⟨"img-1", "i386", ""⟩, ⟨"img-2", "arm64", ""⟩, ⟨"img-3", "amd64", ""⟩]))[i]?
            = some s → s.order = i :=
  ⟨by decide,
   (FindInstanceSpec_arch_preference exampleInfo exampleMatching
      [⟨"img-1", "i386", ""⟩, ⟨"img-2", "arm64", ""⟩, ⟨"img-3", "amd64", ""⟩]
      ⟨"r", "focal", [], (), []⟩
      [⟨"m1", ["amd64", "arm64", "i386"], none⟩, ⟨"m2", ["amd64"], none⟩]
      ⟨⟨"m1", ["amd64", "arm64", "i386"], none⟩, ⟨"img-3", "amd64", ""⟩, 2⟩ (by decide)).2.2.1⟩

/-- C18. Soundness: when `FindInstanceSpec` succeeds, the instance type of the spec
is one of those `MatchingInstanceTypes` returned, its image is one of
`possibleImages`, the image architecture is one of the architectures of the
instance type, and the `VirtType` of the instance type is nil, or equal to that
of the image, or the image has an empty `VirtType`. -/
theorem FindInstanceSpec_sound {Value E : Type} (Info : String → ArchInfo)
    (MatchingInstanceTypes : List InstanceType → String → Value → List InstanceType × Option E)
    (possibleImages : List Image) (ic : InstanceConstraint Value)
    (allInstanceTypes : List InstanceType) (spec : InstanceSpec)
    (h : FindInstanceSpec Info MatchingInstanceTypes possibleImages (some ic) allInstanceTypes
          = FindResult.found spec) :
    spec.InstanceType ∈ (MatchingInstanceTypes allInstanceTypes ic.Region ic.Constraints).1
      ∧ spec.Image ∈ possibleImages
      ∧ spec.Image.Arch ∈ spec.InstanceType.Arches
      ∧ (spec.InstanceType.VirtType = none
        ∨ spec.InstanceType.VirtType = some spec.Image.VirtType
        ∨ spec.Image.VirtType = "") := by
  have hhead := FindInstanceSpec_found Info MatchingInstanceTypes possibleImages ic
    allInstanceTypes spec h
  have hmem := (sortByArch_head Info _ spec hhead).1
  obtain ⟨hT, hI, hcase⟩ := mem_selectSpecs _ _ spec hmem
  refine ⟨hT, hI, ?_, ?_⟩
  · rcases hcase with hE | ⟨hP, _⟩
    · exact ((match_exact_iff _ _).mp hE).1
    · exact ((match_partial_iff _ _).mp hP).1
  · rcases hcase with hE | ⟨hP, _⟩
    · rcases ((match_exact_iff _ _).mp hE).2 with hn | hs
      · exact Or.inl hn
      · exact Or.inr (Or.inl hs)
    · exact Or.inr (Or.inr ((match_partial_iff _ _).mp hP).2.1)

/-- Only a partial match is on offer: an image without virt type for an instance
type with virt type pv. -/
theorem FindInstanceSpec_sound_witness :
    (⟨"m1", ["amd64"], some "pv"⟩ : InstanceType)
        ∈ (exampleMatching [⟨"m1", ["amd64"], some "pv"⟩] "r" ()).1
      ∧ (⟨"img-4", "amd64", ""⟩ : Image)
        ∈ ([⟨"img-4", "amd64", ""⟩, ⟨"img-5", "amd64", "hvm"⟩] : List Image)
      ∧ "amd64" ∈ ["amd64"]
      ∧ ((some "pv" : Option String) = none ∨ (some "pv" : Option String) = some ""
        ∨ (⟨"img-4", "amd64", ""⟩ : Image).VirtType = "") :=
  FindInstanceSpec_sound exampleInfo exampleMatching
    [⟨"img-4", "amd64", ""⟩, ⟨"img-5", "amd64", "hvm"⟩] ⟨"r", "focal", [], (), []⟩
    [⟨"m1", ["amd64"], some "pv"⟩]
    ⟨⟨"m1", ["amd64"], some "pv"⟩, ⟨"img-4", "amd64", ""⟩, 0⟩ (by decide)

end Instances

namespace ResourceClient

/-! ## The unit resources client -/

/-- C19 does not hold of the code. When the facade call succeeds with no
top-level error and exactly one entry, and that entry carries an error, line 102
restores `response.Error`, which is nil there, and not the error of the entry:
`getResourceInfo` returns `Annotate (RestoreError nil)`, whatever the error of
the entry. With `RestoreError` and `Annotate` mapping nil to nil, as they do,
that is the zero resource with a nil error; and `GetResource`, when the
download went through, then returns the zero resource, the body and a nil
error. -/
theorem getResourceInfo_missing_resource {Req Body ApiRes Res : Type}
    (c : Deps Req Body ApiRes Res) (resourceName : String)
    (entry : UnitResourceResult ApiRes) (e : ParamsError)
    (hCall : c.FacadeCall "GetResourceInfo" [resourceName] = (⟨none, [entry]⟩, none))
    (hEntry : entry.Error = some e)
    (hRestore : c.RestoreError none = none)
    (hAnnotate : ∀ msg, c.Annotate none msg = none) :
    getResourceInfo c resourceName
        = (c.zeroResource, c.Annotate (c.RestoreError none) "request failed for resource")
      ∧ getResourceInfo c resourceName = (c.zeroResource, none)
      ∧ ∀ (req : Req) (response : HTTPResponse Body),
          c.NewHTTPDownloadRequest resourceName = (req, none) →
          c.Do req = (some response, none) →
          GetResource c resourceName
            = GetResult.returned c.zeroResource (some response.Body) none := by
  have h1 : getResourceInfo c resourceName
      = (c.zeroResource, c.Annotate (c.RestoreError none) "request failed for resource") := by
    unfold getResourceInfo
    rw [hCall]
    simp [hEntry]
  have h2 : getResourceInfo c resourceName = (c.zeroResource, none) := by
    rw [h1, hRestore, hAnnotate]
  refine ⟨h1, h2, ?_⟩
  intro req response hReq hDo
  unfold GetResource
  rw [hReq]
  simp only [hDo, h2]
  simp

/-- The resource `db` is missing: the facade entry carries a not-found error,
and both methods return a nil error. -/
theorem getResourceInfo_missing_resource_witness :
    getResourceInfo exampleDeps "db"
        = (exampleDeps.zeroResource,
            exampleDeps.Annotate (exampleDeps.RestoreError none) "request failed for resource")
      ∧ getResourceInfo exampleDeps "db" = (exampleDeps.zeroResource, none)
      ∧ ∀ (req : String) (response : HTTPResponse String),
          exampleDeps.NewHTTPDownloadRequest "db" = (req, none) →
          exampleDeps.Do req = (some response, none) →
          GetResource exampleDeps "db"
            = GetResult.returned exampleDeps.zeroResource (some response.Body) none :=
  getResourceInfo_missing_resource exampleDeps "db"
    ⟨some ⟨"resource not found", "not found"⟩, ""⟩ ⟨"resource not found", "not found"⟩
    rfl rfl rfl (fun _ => rfl)

end ResourceClient

namespace Spaces

/-! ## Legacy subnet tags -/

theorem splitChars_ne_nil (sep : Char) (s : List Char) : splitChars sep s ≠ [] := by
  cases s with
  | nil => simp [splitChars]
  | cons c cs =>
    unfold splitChars
    split
    · simp
    · split <;> simp

theorem splitChars_cons_sep (sep : Char) (cs : List Char) :
    splitChars sep (sep :: cs) = [] :: splitChars sep cs := by
  simp [splitChars]

theorem splitChars_cons_other (sep c : Char) (cs : List Char) (hc : c ≠ sep) :
    ∃ w ws, splitChars sep cs = w :: ws ∧ splitChars sep (c :: cs) = (c :: w) :: ws := by
  cases hsp : splitChars sep cs with
  | nil => exact absurd hsp (splitChars_ne_nil sep cs)
  | cons w ws =>
    refine ⟨w, ws, rfl, ?_⟩
    simp [splitChars, hc, hsp]

theorem splitChars_single (sep : Char) (s a : List Char) :
    splitChars sep s = [a] ↔ s = a ∧ sep ∉ a := by
  induction s generalizing a with
  | nil =>
    constructor
    · intro h
      have : a = [] := by simpa [splitChars] using h.symm
      subst this
      simp
    · rintro ⟨h, _⟩
      subst h
      rfl
  | cons c cs ih =>
    by_cases hc : c = sep
    · subst hc
      rw [splitChars_cons_sep]
      constructor
      · intro h
        exact absurd (List.cons.inj h).2 (splitChars_ne_nil c cs)
      · rintro ⟨h1, h2⟩
        subst h1
        exact absurd (List.mem_cons_self _ _) h2
    · obtain ⟨w, ws, hsp, hfull⟩ := splitChars_cons_other sep c cs hc
      rw [hfull]
      constructor
      · intro h
        have h1 := (List.cons.inj h).1
        have h2 := (List.cons.inj h).2
        subst h2
        have hw := (ih w).mp hsp
        subst h1
        refine ⟨by rw [hw.1], ?_⟩
        intro hmem
        rcases List.mem_cons.mp hmem with e | e
        · exact hc e.symm
        · exact hw.2 e
      · rintro ⟨h1, h2⟩
        subst h1
        have hnot : sep ∉ cs := fun hm => h2 (List.mem_cons_of_mem _ hm)
        have := (ih cs).mpr ⟨rfl, hnot⟩
        rw [hsp] at this
        rw [(List.cons.inj this).1, (List.cons.inj this).2]

theorem splitChars_pair (sep : Char) (s a b : List Char) :
    splitChars sep s = [a, b] ↔ s = a ++ sep :: b ∧ sep ∉ a ∧ sep ∉ b := by
  induction s generalizing a with
  | nil =>
    constructor
    · intro h
      simp [splitChars] at h
    · rintro ⟨h, _⟩
      simp at h
  | cons c cs ih =>
    by_cases hc : c = sep
    · subst hc
      rw [splitChars_cons_sep]
      constructor
      · intro h
        have h1 := (List.cons.inj h).1
        have h2 := (List.cons.inj h).2
        subst h1
        have hb := (splitChars_single c cs b).mp h2
        exact ⟨by rw [hb.1]; rfl, by simp, hb.2⟩
      · rintro ⟨h1, h2, h3⟩
        cases a with
        | nil =>
          have hcs : cs = b := by simpa using h1
          rw [(splitChars_single c cs b).mpr ⟨hcs, h3⟩]
        | cons a0 as =>
          have ha0 : c = a0 := (List.cons.inj h1).1
          exact absurd (by rw [ha0]; exact List.mem_cons_self _ _) h2
    · obtain ⟨w, ws, hsp, hfull⟩ := splitChars_cons_other sep c cs hc
      rw [hfull]
      constructor
      · intro h
        have h1 := (List.cons.inj h).1
        have h2 := (List.cons.inj h).2
        subst h2
        have hw := (ih w).mp hsp
        subst h1
        refine ⟨by rw [hw.1]; rfl, ?_, hw.2.2⟩
        intro hmem
        rcases List.mem_cons.mp hmem with e | e
        · exact hc e.symm
        · exact hw.2.1 e
      · rintro ⟨h1, h2, h3⟩
        cases a with
        | nil =>
          have : c = sep := (List.cons.inj h1).1
          exact absurd this hc
        | cons a0 as =>
          have ha0 := (List.cons.inj h1).1
          have hcs := (List.cons.inj h1).2
          have hnot : sep ∉ as := fun hm => h2 (List.mem_cons_of_mem _ hm)
          have := (ih as).mpr ⟨hcs, hnot, h3⟩
          rw [hsp] at this
          rw [(List.cons.inj this).1, (List.cons.inj this).2, ha0]

theorem map_mk_eq_iff (l : List (List Char)) (ss : List String) :
    l.map String.mk = ss ↔ l = ss.map String.toList := by
  constructor
  · intro h
    subst h
    simp [List.map_map, Function.comp_def, String.toList]
  · intro h
    subst h
    simp [List.map_map, Function.comp_def, String.toList]

theorem Split_pair (tag first second : String) :
    Split tag '-' = [first, second] ↔
      tag.toList = first.toList ++ '-' :: second.toList
        ∧ '-' ∉ first.toList ∧ '-' ∉ second.toList := by
  unfold Split
  rw [map_mk_eq_iff]
  exact splitChars_pair '-' tag.toList first.toList second.toList

theorem isOldSubnetTag_iff (tag cidr : String) :
    isOldSubnetTag tag cidr ↔
      tag.toList = "subnet".toList ++ '-' :: cidr.toList ∧ '-' ∉ cidr.toList := by
  unfold isOldSubnetTag
  constructor
  · rintro ⟨h1, h2⟩
    refine ⟨?_, h2⟩
    rw [h1]
    simp [String.toList, String.data_append]
  · rintro ⟨h1, h2⟩
    refine ⟨?_, h2⟩
    apply String.ext
    simp only [String.toList] at h1
    rw [h1]
    simp [String.data_append]

theorem isOldSubnetTag_unique (tag c1 c2 : String)
    (h1 : isOldSubnetTag tag c1) (h2 : isOldSubnetTag tag c2) : c1 = c2 := by
  have e1 := ((isOldSubnetTag_iff tag c1).mp h1).1
  have e2 := ((isOldSubnetTag_iff tag c2).mp h2).1
  rw [e1] at e2
  have := List.append_cancel_left e2
  have h3 := (List.cons.inj this).2
  exact String.ext h3

theorem convertFrom_step_ok (cidrs : List String) (tag cidr : String) (rest : List String)
    (h : isOldSubnetTag tag cidr) :
    convertFrom cidrs (tag :: rest) = convertFrom (cidrs ++ [cidr]) rest := by
  have h2 := (isOldSubnetTag_iff tag cidr).mp h
  have hs : Split tag '-' = ["subnet", cidr] :=
    (Split_pair tag "subnet" cidr).mpr ⟨h2.1, by decide, h2.2⟩
  rw [convertFrom, hs]
  simp

theorem convertFrom_step_bad (cidrs : List String) (tag : String) (rest : List String)
    (h : ¬ ∃ cidr, isOldSubnetTag tag cidr) :
    convertFrom cidrs (tag :: rest) = (none, some (ConvertError.notValidSubnetTag tag)) := by
  rw [convertFrom]
  split
  · rename_i first second hs
    by_cases hf : first = "subnet"
    · exfalso
      subst hf
      have h2 := (Split_pair tag "subnet" second).mp hs
      exact h ⟨second, (isOldSubnetTag_iff tag second).mpr ⟨h2.1, h2.2.2⟩⟩
    · simp [hf]
  · rfl

theorem convertFrom_ok_iff (subnetTags : List String) (acc out : List String) :
    convertFrom acc subnetTags = (some out, none) ↔
      ∃ cidrs, out = acc ++ cidrs ∧ List.Forall₂ isOldSubnetTag subnetTags cidrs := by
  induction subnetTags generalizing acc with
  | nil =>
    simp only [convertFrom]
    constructor
    · intro h
      have : acc = out := by simpa using h
      exact ⟨[], by simp [this], List.Forall₂.nil⟩
    · rintro ⟨cidrs, h1, h2⟩
      cases h2
      simp [h1]
  | cons tag rest ih =>
    by_cases h : ∃ cidr, isOldSubnetTag tag cidr
    · obtain ⟨cidr, hc⟩ := h
      rw [convertFrom_step_ok acc tag cidr rest hc, ih]
      constructor
      · rintro ⟨cs, h1, h2⟩
        exact ⟨cidr :: cs, by simp [h1], List.Forall₂.cons hc h2⟩
      · rintro ⟨cidrs, h1, h2⟩
        obtain ⟨c, cs, hhead, htail, hcidrs⟩ := List.forall₂_cons_left_iff.mp h2
        have hcc := isOldSubnetTag_unique tag c cidr hhead hc
        subst hcc
        exact ⟨cs, by simp [h1, hcidrs], htail⟩
    · rw [convertFrom_step_bad acc tag rest h]
      constructor
      · intro h2
        simp at h2
      · rintro ⟨cidrs, _, h2⟩
        obtain ⟨c, cs, hhead, _, _⟩ := List.forall₂_cons_left_iff.mp h2
        exact absurd ⟨c, hhead⟩ h

theorem forall₂_left_exists (subnetTags cidrs : List String)
    (h : List.Forall₂ isOldSubnetTag subnetTags cidrs) :
    ∀ tag ∈ subnetTags, ∃ cidr, isOldSubnetTag tag cidr := by
  induction h with
  | nil => intro tag htag; cases htag
  | cons hhead _ ih =>
    intro tag htag
    rcases List.mem_cons.mp htag with e | e
    · subst e
      exact ⟨_, hhead⟩
    · exact ih tag e

theorem convertFrom_total (subnetTags : List String) (acc : List String) :
    (∃ out, convertFrom acc subnetTags = (some out, none))
      ∨ ∃ tag ∈ subnetTags, (¬ ∃ cidr, isOldSubnetTag tag cidr)
          ∧ convertFrom acc subnetTags = (none, some (ConvertError.notValidSubnetTag tag)) := by
  induction subnetTags generalizing acc with
  | nil => exact Or.inl ⟨acc, rfl⟩
  | cons tag rest ih =>
    by_cases h : ∃ cidr, isOldSubnetTag tag cidr
    · obtain ⟨cidr, hc⟩ := h
      rw [convertFrom_step_ok acc tag cidr rest hc]
      rcases ih (acc ++ [cidr]) with hok | ⟨t, ht, hbad, heq⟩
      · exact Or.inl hok
      · exact Or.inr ⟨t, List.mem_cons_of_mem _ ht, hbad, heq⟩
    · exact Or.inr ⟨tag, List.mem_cons_self _ _, h, convertFrom_step_bad acc tag rest h⟩

/-- C20. Legacy subnet-tag conversion: `convertOldSubnetTagToCIDR` returns
`(cidrs, nil)` exactly when `cidrs` pairs off with the tags, each tag being
"subnet-" followed by its entry of `cidrs` and that entry holding no '-'; the
two lists then have the same length. Such a result exists if and only if every
tag has that form. If some tag has not, the result is a nil slice and the
error for a tag of the list that has not that form; no other result occurs. So
for every `c` without '-', converting `["subnet-" ++ c]` gives `[c]`. -/
theorem convertOldSubnetTagToCIDR_spec (subnetTags : List String) :
    (∀ cidrs, convertOldSubnetTagToCIDR subnetTags = (some cidrs, none) ↔
        List.Forall₂ isOldSubnetTag subnetTags cidrs)
      ∧ (∀ cidrs, convertOldSubnetTagToCIDR subnetTags = (some cidrs, none) →
          cidrs.length = subnetTags.length)
      ∧ ((∃ cidrs, convertOldSubnetTagToCIDR subnetTags = (some cidrs, none)) ↔
          ∀ tag ∈ subnetTags, ∃ cidr, isOldSubnetTag tag cidr)
      ∧ ((∃ tag ∈ subnetTags, ¬ ∃ cidr, isOldSubnetTag tag cidr) →
          ∃ tag ∈ subnetTags, (¬ ∃ cidr, isOldSubnetTag tag cidr)
            ∧ convertOldSubnetTagToCIDR subnetTags
              = (none, some (ConvertError.notValidSubnetTag tag)))
      ∧ (∀ c : String, '-' ∉ c.toList →
          convertOldSubnetTagToCIDR ["subnet-" ++ c] = (some [c], none)) := by
  have hiff : ∀ cidrs, convertOldSubnetTagToCIDR subnetTags = (some cidrs, none) ↔
      List.Forall₂ isOldSubnetTag subnetTags cidrs := by
    intro cidrs
    unfold convertOldSubnetTagToCIDR
    rw [convertFrom_ok_iff]
    simp
  have hall : (∃ cidrs, convertOldSubnetTagToCIDR subnetTags = (some cidrs, none)) ↔
      ∀ tag ∈ subnetTags, ∃ cidr, isOldSubnetTag tag cidr := by
    constructor
    · rintro ⟨cidrs, h⟩ tag htag
      exact forall₂_left_exists _ _ ((hiff cidrs).mp h) tag htag
    · intro h
      rcases convertFrom_total subnetTags [] with hok | ⟨t, ht, hbad, _⟩
      · exact hok
      · exact absurd (h t ht) hbad
  refine ⟨hiff, ?_, hall, ?_, ?_⟩
  · intro cidrs h
    exact ((hiff cidrs).mp h).length_eq.symm
  · rintro ⟨tag, htag, hbad⟩
    rcases convertFrom_total subnetTags [] with hok | hfail
    · exact absurd (hall.mp hok tag htag) hbad
    · exact hfail
  · intro c hc
    unfold convertOldSubnetTagToCIDR
    rw [convertFrom_step_ok [] ("subnet-" ++ c) c [] ⟨rfl, hc⟩]
    rfl

end Spaces

namespace Uniter

/-! ## The actions resolver: the other kinds -/

/-- C21. Fall-through: with the gate open and a kind that is none of RunHook,
RunAction and Continue, the run returns `(nil, ErrNoOperation)` and makes no
call at all, whatever the pending list and the completed set, so also when
pending actions that are not completed exist. -/
theorem NextOp_fall_through {Op : Type} (localState : LocalState) (remoteState : Snapshot)
    (opFactory : Factory Op)
    (hB : remoteState.ActionsBlocked = false)
    (hO : localState.OutdatedRemoteCharm = false)
    (hHook : localState.Kind ≠ Kind.RunHook)
    (hAction : localState.Kind ≠ Kind.RunAction)
    (hContinue : localState.Kind ≠ Kind.Continue) :
    NextOp localState remoteState opFactory
        = ⟨[], Completion.returned none (some Error.ErrNoOperation)⟩
      ∧ (NextOp localState remoteState opFactory).factoryCalls = [] := by
  have hrun : NextOp localState remoteState opFactory
      = ⟨[], Completion.returned none (some Error.ErrNoOperation)⟩ := by
    cases hC : nextCandidate remoteState.ActionsPending localState.CompletedActions with
    | none =>
      rw [NextOp_of_no_candidate _ _ _ hB hO hC]
      cases hK : localState.Kind <;> simp_all
    | some c =>
      rw [NextOp_of_candidate _ _ _ c hB hO hC]
      cases hK : localState.Kind <;> simp_all
  refine ⟨hrun, ?_⟩
  rw [hrun]
  rfl

/-- Kind RunCommand with two pending actions, none completed. -/
theorem NextOp_fall_through_witness :
    NextOp ⟨Kind.RunCommand, Step.Pending, none, none, ∅, false⟩ ⟨["a1", "a2"], false, ""⟩
        textFactory
        = ⟨[], Completion.returned none (some Error.ErrNoOperation)⟩
      ∧ (NextOp ⟨Kind.RunCommand, Step.Pending, none, none, ∅, false⟩
          ⟨["a1", "a2"], false, ""⟩ textFactory).factoryCalls = [] :=
  NextOp_fall_through ⟨Kind.RunCommand, Step.Pending, none, none, ∅, false⟩
    ⟨["a1", "a2"], false, ""⟩ textFactory rfl rfl (by decide) (by decide) (by decide)

end Uniter

namespace Upgrades

/-! ## Major-version upgrades: tags and errors -/

/-- C22. Pre-release tags are ignored: when `from.Major` is below `to.Major` and
the target major has the minimum version `minVer` in `MinMajorUpgradeVersion`,
`UpgradeAllowed` returns `(f.Compare(minVer) >= 0, minVer, nil)` where `f` is
`from` with its tag cleared. So two `from` versions that differ only in their
tag get the same answer. The function receives `from` by value and returns
only the triple, so the version of the caller is not changed. -/
theorem UpgradeAllowed_ignores_tag (from_ from2 to_ minVer : Number)
    (hlt : from_.Major < to_.Major)
    (hmin : MinMajorUpgradeVersion to_.Major = some minVer) :
    UpgradeAllowed from_ to_
        = (decide (({ from_ with Tag := "" } : Number).Compare minVer ≥ 0), minVer, none)
      ∧ (from2.Major = from_.Major → from2.Minor = from_.Minor → from2.Patch = from_.Patch →
          from2.Build = from_.Build → UpgradeAllowed from2 to_ = UpgradeAllowed from_ to_) := by
  have hval : ∀ v : Number, v.Major < to_.Major →
      UpgradeAllowed v to_
        = (decide (({ v with Tag := "" } : Number).Compare minVer ≥ 0), minVer, none) := by
    intro v hv
    have h1 : ¬ v.Major = to_.Major := by omega
    have h2 : ¬ v.Major > to_.Major := by omega
    unfold UpgradeAllowed
    rw [if_neg h1, if_neg h2, hmin]
  refine ⟨hval from_ hlt, ?_⟩
  intro hMajor hMinor hPatch hBuild
  have hlt2 : from2.Major < to_.Major := by omega
  rw [hval from_ hlt, hval from2 hlt2]
  have hEq : ({ from2 with Tag := "" } : Number) = { from_ with Tag := "" } := by
    cases from2
    cases from_
    simp_all
  rw [hEq]

/-- From 2.9-rc1 and from 2.9.1 to 3.0.0: both allowed, with minimum 2.8.9. -/
theorem UpgradeAllowed_ignores_tag_witness :
    UpgradeAllowed ⟨2, 9, "rc", 1, 0⟩ ⟨3, 0, "", 0, 0⟩
        = (decide (({ (⟨2, 9, "rc", 1, 0⟩ : Number) with Tag := "" } : Number).Compare
            ⟨2, 8, "", 9, 0⟩ ≥ 0), ⟨2, 8, "", 9, 0⟩, none)
      ∧ ((⟨2, 9, "", 1, 0⟩ : Number).Major = (⟨2, 9, "rc", 1, 0⟩ : Number).Major →
          (⟨2, 9, "", 1, 0⟩ : Number).Minor = (⟨2, 9, "rc", 1, 0⟩ : Number).Minor →
          (⟨2, 9, "", 1, 0⟩ : Number).Patch = (⟨2, 9, "rc", 1, 0⟩ : Number).Patch →
          (⟨2, 9, "", 1, 0⟩ : Number).Build = (⟨2, 9, "rc", 1, 0⟩ : Number).Build →
          UpgradeAllowed ⟨2, 9, "", 1, 0⟩ ⟨3, 0, "", 0, 0⟩
            = UpgradeAllowed ⟨2, 9, "rc", 1, 0⟩ ⟨3, 0, "", 0, 0⟩) :=
  UpgradeAllowed_ignores_tag ⟨2, 9, "rc", 1, 0⟩ ⟨2, 9, "", 1, 0⟩ ⟨3, 0, "", 0, 0⟩
    ⟨2, 8, "", 9, 0⟩ (by decide) (by decide)

/-- C23. Errors: `UpgradeAllowed` returns an error if and only if `from.Major` is
below `to.Major` and `to.Major` is not a key of `MinMajorUpgradeVersion`; it
then also returns false and the zero version. -/
theorem UpgradeAllowed_error_iff (from_ to_ : Number) :
    ((UpgradeAllowed from_ to_).2.2 ≠ none ↔
        from_.Major < to_.Major ∧ MinMajorUpgradeVersion to_.Major = none)
      ∧ ((UpgradeAllowed from_ to_).2.2 ≠ none →
          UpgradeAllowed from_ to_
            = (false, ⟨0, 0, "", 0, 0⟩, some (UpgradeError.unknownVersion to_))) := by
  unfold UpgradeAllowed
  by_cases h1 : from_.Major = to_.Major
  · have hnlt : ¬ from_.Major < to_.Major := by omega
    simp [h1]
  · by_cases h2 : from_.Major > to_.Major
    · have hnlt : ¬ from_.Major < to_.Major := by omega
      simp [h1, h2, hnlt]
    · have hlt : from_.Major < to_.Major := by omega
      cases hM : MinMajorUpgradeVersion to_.Major with
      | none => simp [h1, h2, hlt]
      | some minVer => simp [h1, h2, hlt]

end Upgrades

namespace Uniter

/-! ## The actions resolver in state-passing form -/

theorem NextOpWorld_run {S Op : Type} (opFactory : StatefulFactory S Op) (w : World S) :
    (NextOpWorld opFactory w).1
      = NextOp w.localState w.remoteState (opFactory.frozen w.factoryState) := by
  unfold NextOpWorld NextOp
  rcases hN : nextAction w.remoteState.ActionsPending w.localState.CompletedActions
    with ⟨next, err⟩
  simp only
  split
  · split
    · split
      · rfl
      · split <;> rfl
    · rfl
  · split
    · rfl
    · split
      · split <;> rfl
      · split
        · rfl
        · split
          · rfl
          · split <;> rfl
      · split <;> rfl
      · rfl

theorem NextOpWorld_frame {S Op : Type} (opFactory : StatefulFactory S Op) (w : World S) :
    (NextOpWorld opFactory w).2.localState = w.localState
      ∧ (NextOpWorld opFactory w).2.remoteState = w.remoteState := by
  unfold NextOpWorld
  rcases hN : nextAction w.remoteState.ActionsPending w.localState.CompletedActions
    with ⟨next, err⟩
  simp only
  split
  · split
    · split
      · exact ⟨rfl, rfl⟩
      · split <;> exact ⟨rfl, rfl⟩
    · exact ⟨rfl, rfl⟩
  · split
    · exact ⟨rfl, rfl⟩
    · split
      · split <;> exact ⟨rfl, rfl⟩
      · split
        · exact ⟨rfl, rfl⟩
        · split
          · exact ⟨rfl, rfl⟩
          · split <;> exact ⟨rfl, rfl⟩
      · split <;> exact ⟨rfl, rfl⟩
      · exact ⟨rfl, rfl⟩

theorem frozen_eq_of_deterministic {S Op : Type} (opFactory : StatefulFactory S Op)
    (hdet : opFactory.deterministic) (s s2 : S) :
    opFactory.frozen s = opFactory.frozen s2 := by
  have h1 : (fun id => (opFactory.NewAction id s).1)
      = (fun id => (opFactory.NewAction id s2).1) := funext (fun id => hdet.1 id s s2)
  have h2 : (fun id => (opFactory.NewFailAction id s).1)
      = (fun id => (opFactory.NewFailAction id s2).1) := funext (fun id => hdet.2.1 id s s2)
  have h3 : (fun hook => (opFactory.NewSkipHook hook s).1)
      = (fun hook => (opFactory.NewSkipHook hook s2).1) :=
    funext (fun hook => hdet.2.2 hook s s2)
  unfold StatefulFactory.frozen
  rw [h1, h2, h3]

/-- C11. Determinism and non-modification, with the call in state-passing form.
A call of `NextOp` leaves the local state (so `CompletedActions`, `Hook` and
`ActionId`) and the snapshot (so `ActionsPending`) as it found them, whatever
the factory does. Two calls on identical local state and snapshot make the
same calls - the same factory constructor with the same argument, and the same
log lines - for every factory; for a deterministic factory they also return
the same pair, so the runs are equal, whatever state each call finds the
factory in; in particular a second call, made in the world the first call left,
repeats the run of the first. The run is the one `NextOp` gives with the
answers of the factory in the state the call found it in. -/
theorem NextOp_idempotent {S Op : Type} (opFactory : StatefulFactory S Op) (w w2 : World S) :
    (NextOpWorld opFactory w).2.localState = w.localState
      ∧ (NextOpWorld opFactory w).2.remoteState = w.remoteState
      ∧ (w2.localState = w.localState → w2.remoteState = w.remoteState →
          (NextOpWorld opFactory w2).1.trace = (NextOpWorld opFactory w).1.trace)
      ∧ (opFactory.deterministic →
          (w2.localState = w.localState → w2.remoteState = w.remoteState →
            (NextOpWorld opFactory w2).1 = (NextOpWorld opFactory w).1)
          ∧ (NextOpWorld opFactory (NextOpWorld opFactory w).2).1
              = (NextOpWorld opFactory w).1)
      ∧ (NextOpWorld opFactory w).1
          = NextOp w.localState w.remoteState (opFactory.frozen w.factoryState) := by
  obtain ⟨hl, hr⟩ := NextOpWorld_frame opFactory w
  have hsame : ∀ v : World S, opFactory.deterministic →
      v.localState = w.localState → v.remoteState = w.remoteState →
      (NextOpWorld opFactory v).1 = (NextOpWorld opFactory w).1 := by
    intro v hdet hvl hvr
    rw [NextOpWorld_run, NextOpWorld_run, hvl, hvr,
      frozen_eq_of_deterministic opFactory hdet v.factoryState w.factoryState]
  refine ⟨hl, hr, ?_, ?_, NextOpWorld_run opFactory w⟩
  · intro h2l h2r
    rw [NextOpWorld_run, NextOpWorld_run, h2l, h2r]
    exact (NextOp_factory_independence w.localState w.remoteState
      (opFactory.frozen w2.factoryState) (opFactory.frozen w2.factoryState)
      (opFactory.frozen w.factoryState)).1
  · intro hdet
    exact ⟨hsame w2 hdet, hsame _ hdet hl hr⟩

/-- Scenario B with the factory that counts its calls: the first call moves the
count from 0 to 1 and leaves the local state and the snapshot alone, and the
second call, made in that world, repeats the run. -/
theorem NextOp_idempotent_witness :
    (NextOpWorld countingFactory
        (NextOpWorld countingFactory
          ⟨⟨Kind.RunAction, Step.Queued, none, some "a1", ∅, false⟩,
            ⟨["a1", "a2"], false, ""⟩, 0⟩).2).1
        = (NextOpWorld countingFactory
          ⟨⟨Kind.RunAction, Step.Queued, none, some "a1", ∅, false⟩,
            ⟨["a1", "a2"], false, ""⟩, 0⟩).1
      ∧ (NextOpWorld countingFactory
          ⟨⟨Kind.RunAction, Step.Queued, none, some "a1", ∅, false⟩,
            ⟨["a1", "a2"], false, ""⟩, 0⟩).2.localState
        = ⟨Kind.RunAction, Step.Queued, none, some "a1", ∅, false⟩
      ∧ (NextOpWorld countingFactory
          ⟨⟨Kind.RunAction, Step.Queued, none, some "a1", ∅, false⟩,
            ⟨["a1", "a2"], false, ""⟩, 0⟩).2.remoteState
        = ⟨["a1", "a2"], false, ""⟩
      ∧ (NextOpWorld countingFactory
          ⟨⟨Kind.RunAction, Step.Queued, none, some "a1", ∅, false⟩,
            ⟨["a1", "a2"], false, ""⟩, 0⟩).2.factoryState = 1
      ∧ (NextOpWorld countingFactory
          ⟨⟨Kind.RunAction, Step.Queued, none, some "a1", ∅, false⟩,
            ⟨["a1", "a2"], false, ""⟩, 0⟩).1
        = ⟨[Event.Infof "%q hook is nil" (LogArg.OpKind Kind.RunAction),
            Event.NewFailAction "a1"],
           Completion.returned (some "fail-action a1") none⟩ :=
  ⟨((NextOp_idempotent countingFactory
        ⟨⟨Kind.RunAction, Step.Queued, none, some "a1", ∅, false⟩,
          ⟨["a1", "a2"], false, ""⟩, 0⟩
        ⟨⟨Kind.RunAction, Step.Queued, none, some "a1", ∅, false⟩,
          ⟨["a1", "a2"], false, ""⟩, 0⟩).2.2.2.1
      ⟨fun _ _ _ => rfl, fun _ _ _ => rfl, fun _ _ _ => rfl⟩).2,
   (NextOp_idempotent countingFactory
        ⟨⟨Kind.RunAction, Step.Queued, none, some "a1", ∅, false⟩,
          ⟨["a1", "a2"], false, ""⟩, 0⟩
        ⟨⟨Kind.RunAction, Step.Queued, none, some "a1", ∅, false⟩,
          ⟨["a1", "a2"], false, ""⟩, 0⟩).1,
   (NextOp_idempotent countingFactory
        ⟨⟨Kind.RunAction, Step.Queued, none, some "a1", ∅, false⟩,
          ⟨["a1", "a2"], false, ""⟩, 0⟩
        ⟨⟨Kind.RunAction, Step.Queued, none, some "a1", ∅, false⟩,
          ⟨["a1", "a2"], false, ""⟩, 0⟩).2.1,
   by decide, by decide⟩

end Uniter
